import Mathlib

/-!
# request-baskets: the HTTP handlers of `handlers.go`

A shallow embedding of `src/handlers.go`.  Go strings and byte slices are lists of
bytes, Go `int` values are integers of the mathematical kind together with explicit
range checks, a `*Basket` is the basket stored in the registry under its name, and a
handler is a function from the state of the registry, the response writer and the
request to the new state and response writer.

The library functions the handlers call (`strings.Split`, `strconv.Atoi`,
`json.Unmarshal`, `url.ParseRequestURI`, `http.Error`, ...) are modelled after the Go
standard library.  The basket engine itself (`baskets.go`) is not part of the sources
at hand; the operations of it that the handlers call are modelled from the
specification and marked as such.
-/

namespace RequestBaskets

/-! ## Go strings -/

/-- A Go `string` (and a `[]byte`): a finite sequence of bytes. -/
abbrev GoString := List UInt8

/-- The Go string literal with the given text (its UTF-8 encoding). -/
def go (s : String) : GoString := s.toList.flatMap String.utf8EncodeChar

/-- A Go `error` value: only its presence matters to the handlers, the text is
informative. -/
abbrev GoError := String

/-! ## `unicode/utf8` -/

/-- A UTF-8 continuation byte `10xxxxxx`. -/
def utf8.isCont (b : UInt8) : Bool := 0x80 ≤ b && b ≤ 0xBF

/-- The width result of `utf8.DecodeRune` on a non-empty input: the number of bytes of the
well-formed UTF-8 sequence at the head of `s`, or `none` where Go
returns `(RuneError, 1)` for an ill-formed or truncated sequence. -/
def utf8.validSize : GoString → Option Nat
  | [] => none
  | b0 :: rest =>
    if b0 < 0x80 then some 1
    else if 0xC2 ≤ b0 && b0 ≤ 0xDF then
      match rest with
      | b1 :: _ => if utf8.isCont b1 then some 2 else none
      | _ => none
    else if 0xE0 ≤ b0 && b0 ≤ 0xEF then
      match rest with
      | b1 :: b2 :: _ =>
        let lo : UInt8 := if b0 = 0xE0 then 0xA0 else 0x80
        let hi : UInt8 := if b0 = 0xED then 0x9F else 0xBF
        if lo ≤ b1 && b1 ≤ hi && utf8.isCont b2 then some 3 else none
      | _ => none
    else if 0xF0 ≤ b0 && b0 ≤ 0xF4 then
      match rest with
      | b1 :: b2 :: b3 :: _ =>
        let lo : UInt8 := if b0 = 0xF0 then 0x90 else 0x80
        let hi : UInt8 := if b0 = 0xF4 then 0x8F else 0xBF
        if lo ≤ b1 && b1 ≤ hi && utf8.isCont b2 && utf8.isCont b3 then some 4 else none
      | _ => none
    else none

/-- The bytes `utf8.EncodeRune` writes for the code point `r` (surrogates and values
above U+10FFFF are written as U+FFFD). -/
def utf8.EncodeRune (r : Nat) : GoString :=
  if r < 0x80 then [r.toUInt8]
  else if r < 0x800 then [(0xC0 + r / 64).toUInt8, (0x80 + r % 64).toUInt8]
  else if (0xD800 ≤ r && r ≤ 0xDFFF) || 0x10FFFF < r then [0xEF, 0xBF, 0xBD]
  else if r < 0x10000 then
    [(0xE0 + r / 4096).toUInt8, (0x80 + r / 64 % 64).toUInt8, (0x80 + r % 64).toUInt8]
  else
    [(0xF0 + r / 262144).toUInt8, (0x80 + r / 4096 % 64).toUInt8,
     (0x80 + r / 64 % 64).toUInt8, (0x80 + r % 64).toUInt8]

/-! ## `strings` -/

/-- The Go function `strings.HasPrefix`. -/
def strings.HasPrefix (s pre : GoString) : Bool := pre.isPrefixOf s

/-- The pieces of `explode(s, -1)`: `s` cut into its UTF-8 sequences, an ill-formed byte
being a piece of its own.  `skip` counts the bytes of the current piece still to copy. -/
def strings.explode : GoString → Nat → GoString → List GoString
  | [], _, acc => if acc.isEmpty then [] else [acc.reverse]
  | c :: cs, 0, acc =>
    let piece := if acc.isEmpty then [] else [acc.reverse]
    piece ++ strings.explode cs (((utf8.validSize (c :: cs)).getD 1) - 1) [c]
  | c :: cs, k + 1, acc => strings.explode cs k (c :: acc)

/-- The loop of `genSplit` for a non-empty separator: `acc` holds the bytes of the current
piece (reversed), `skip` the number of bytes of a separator just matched that are still
to be stepped over. -/
def strings.splitLoop (sep : GoString) : GoString → GoString → Nat → List GoString
  | [], acc, _ => [acc.reverse]
  | _ :: cs, acc, k + 1 => strings.splitLoop sep cs acc k
  | c :: cs, acc, 0 =>
    if sep.isPrefixOf (c :: cs) then acc.reverse :: strings.splitLoop sep cs [] (sep.length - 1)
    else strings.splitLoop sep cs (c :: acc) 0

/-- The Go function `strings.Split(s, sep)`: the substrings of `s` between the
non-overlapping occurrences of `sep`, found left to right; with an empty separator the
UTF-8 sequences of `s`. -/
def strings.Split (s sep : GoString) : List GoString :=
  if sep.isEmpty then strings.explode s 0 [] else strings.splitLoop sep s [] 0

/-! ## `strconv` -/

deriving instance DecidableEq for Except

/-- The two errors of `strconv`: `ErrSyntax` and `ErrRange`. -/
inductive strconv.NumError where
  | ErrSyntax
  | ErrRange
  deriving DecidableEq, Repr

/-- The digit loop of `strconv.ParseUint(s, 10, bitSize)` on the bytes not yet read, `n`
being the `uint64` accumulated so far. -/
def strconv.parseUintLoop (bitSize : Nat) : GoString → Nat → Except strconv.NumError Nat
  | [], n => .ok n
  | c :: cs, n =>
    -- case '0' <= c && c <= '9': d = c - '0'; every other byte is no digit of base 10
    if 0x30 ≤ c && c ≤ 0x39 then
      let d := c.toNat - 0x30
      -- cutoff = maxUint64/10 + 1
      if n ≥ (2 ^ 64 - 1) / 10 + 1 then .error .ErrRange
      else
        let n10 := n * 10 % 2 ^ 64
        let n1 := (n10 + d) % 2 ^ 64
        -- maxVal = 1<<bitSize - 1
        if n1 < n10 || n1 > 2 ^ bitSize - 1 then .error .ErrRange
        else strconv.parseUintLoop bitSize cs n1
    else .error .ErrSyntax

/-- The Go function `strconv.ParseUint(s, 10, bitSize)` for `0 < bitSize ≤ 64`. -/
def strconv.ParseUint (s : GoString) (bitSize : Nat) : Except strconv.NumError Nat :=
  if s.isEmpty then .error .ErrSyntax else strconv.parseUintLoop bitSize s 0

/-- The Go function `strconv.ParseInt(s, 10, bitSize)` for `0 < bitSize ≤ 64`: an optional
sign, then `ParseUint`, then the range check against `1 << (bitSize-1)`. -/
def strconv.ParseInt (s : GoString) (bitSize : Nat) : Except strconv.NumError Int :=
  match s with
  | [] => .error .ErrSyntax
  | c :: cs =>
    let neg : Bool := c = 0x2D
    let digits := if c = 0x2B || c = 0x2D then cs else c :: cs
    match strconv.ParseUint digits bitSize with
    | .error .ErrSyntax => .error .ErrSyntax
    | .error .ErrRange => .error .ErrRange
    | .ok un =>
      let cutoff := 2 ^ (bitSize - 1)
      if !neg && un ≥ cutoff then .error .ErrRange
      else if neg && un > cutoff then .error .ErrRange
      else .ok (if neg then -(un : Int) else (un : Int))

/-- The Go function `strconv.Atoi(s)`, that is `ParseInt(s, 10, 0)` converted to `int`,
on a platform whose `int` has `intSize` bits. -/
def strconv.Atoi (intSize : Nat) (s : GoString) : Except strconv.NumError Int :=
  strconv.ParseInt s intSize

/-! ## The basket configuration -/

/-- The configuration of a basket, with the two fields `handlers.go` initialises in
`Config{ForwardUrl: "", Capacity: DEFAULT_BASKET_CAPACITY}`. -/
structure Config where
  ForwardUrl : GoString
  Capacity : Int
  deriving DecidableEq, Repr

/-- Modelled from the spec: the declaration of `Config` (and with it the JSON name of its
field `ForwardUrl`) is not part of the sources; the specification gives the body of a
creation request as `{forwardUrl?: string, capacity?: integer}`. -/
def Config.forwardUrlKey : GoString := go "forwardUrl"

/-- Modelled from the spec: the declaration of `Config` (and with it the JSON name of its
field `Capacity`) is not part of the sources; the specification gives the body of a
creation request as `{forwardUrl?: string, capacity?: integer}`. -/
def Config.capacityKey : GoString := go "capacity"

/-! ## `encoding/json` -/

/-- A JSON value as the decoder sees it: a number keeps its literal, a string is already
unquoted. -/
inductive Json where
  | null
  | bool (b : Bool)
  | number (lit : GoString)
  | string (s : GoString)
  | array (elems : List Json)
  | object (members : List (GoString × Json))

/-- The white space of JSON: space, tab, carriage return, line feed. -/
def json.isSpace (c : UInt8) : Bool := c = 0x20 || c = 0x09 || c = 0x0D || c = 0x0A

/-- Steps over leading white space. -/
def json.skipSpace : GoString → GoString
  | [] => []
  | c :: cs => if json.isSpace c then json.skipSpace cs else c :: cs

/-- A decimal digit. -/
def json.isDigit (c : UInt8) : Bool := 0x30 ≤ c && c ≤ 0x39

/-- The value of a hexadecimal digit, if `c` is one. -/
def json.unhex (c : UInt8) : Option Nat :=
  if 0x30 ≤ c && c ≤ 0x39 then some (c - 0x30).toNat
  else if 0x61 ≤ c && c ≤ 0x66 then some ((c - 0x61).toNat + 10)
  else if 0x41 ≤ c && c ≤ 0x46 then some ((c - 0x41).toNat + 10)
  else none

/-- The function `getu4` on the four bytes after a backslash and a `u`: the code unit they
spell in hexadecimal. -/
def json.getu4 (a b c d : UInt8) : Option Nat :=
  match json.unhex a, json.unhex b, json.unhex c, json.unhex d with
  | some x, some y, some z, some w => some (((x * 16 + y) * 16 + z) * 16 + w)
  | _, _, _, _ => none

/-- The code unit of an escape `\uXXXX` at the head of `s`, with what follows it. -/
def json.escapeU (s : GoString) : Option (Nat × GoString) :=
  match s with
  | 0x5C :: 0x75 :: a :: b :: c :: d :: rest => (json.getu4 a b c d).map (fun r => (r, rest))
  | _ => none

/-- The escape at the head of `s`, the input after a backslash: the bytes it stands for and
the number of bytes of `s` it takes.  The scanner accepts the escapes
`\" \\ \/ \b \f \n \r \t \uXXXX`; the decoder (`unquote`) joins a surrogate pair of
`\u` escapes and writes U+FFFD for a lone surrogate. -/
def json.unescape (s : GoString) : Option (GoString × Nat) :=
  match s with
  | [] => none
  | e :: es =>
    if e = 0x22 || e = 0x5C || e = 0x2F then some ([e], 1)
    else if e = 0x62 then some ([0x08], 1)
    else if e = 0x66 then some ([0x0C], 1)
    else if e = 0x6E then some ([0x0A], 1)
    else if e = 0x72 then some ([0x0D], 1)
    else if e = 0x74 then some ([0x09], 1)
    else if e = 0x75 then
      match es with
      | a :: b :: c :: d :: rest =>
        match json.getu4 a b c d with
        | none => none
        | some rr =>
          if 0xD800 ≤ rr && rr < 0xE000 then
            match json.escapeU rest with
            | some (rr1, _) =>
              if rr < 0xDC00 && 0xDC00 ≤ rr1 && rr1 < 0xE000 then
                -- a valid pair: both escapes are consumed
                some (utf8.EncodeRune ((rr - 0xD800) * 1024 + (rr1 - 0xDC00) + 0x10000), 11)
              else some ([0xEF, 0xBF, 0xBD], 5)
            | none => some ([0xEF, 0xBF, 0xBD], 5)
          else some (utf8.EncodeRune rr, 5)
      | _ => none
    else none

/-- The body of a JSON string, read after its opening quote: the scanner accepts any byte
from 0x20 on other than the quote and the backslash, and the escapes; the decoder
(`unquote`) replaces the escapes and writes U+FFFD for every ill-formed UTF-8 byte.
`acc` is the text decoded so far (reversed), `raw` the number of bytes of a well-formed
UTF-8 sequence still to be copied, `skip` the number of bytes of an escape still to be
stepped over.  Returns the decoded text and the input after the closing quote. -/
def json.parseString : GoString → GoString → Nat → Nat → Option (GoString × GoString)
  | [], _, _, _ => none
  | _ :: cs, acc, raw, skip + 1 => json.parseString cs acc raw skip
  | c :: cs, acc, raw + 1, 0 => json.parseString cs (c :: acc) raw 0
  | c :: cs, acc, 0, 0 =>
    if c = 0x22 then some (acc.reverse, cs)
    else if c < 0x20 then none
    else if c = 0x5C then
      match json.unescape cs with
      | none => none
      | some (out, n) => json.parseString cs (out.reverse ++ acc) 0 n
    else if c < 0x80 then json.parseString cs (c :: acc) 0 0
    else
      match utf8.validSize (c :: cs) with
      | some k => json.parseString cs (c :: acc) (k - 1) 0
      | none => json.parseString cs ([0xBD, 0xBF, 0xEF] ++ acc) 0 0

/-- The input after one decimal digit or more at the head of `s`, if there is one. -/
def json.afterDigits (s : GoString) : Option GoString :=
  match s with
  | d :: ds => if json.isDigit d then some (ds.dropWhile json.isDigit) else none
  | [] => none

/-- The input after the optional minus sign of a number. -/
def json.afterMinus (s : GoString) : GoString :=
  match s with
  | c :: cs => if c = 0x2D then cs else s
  | [] => s

/-- The input after the integer part of a number, `0 | [1-9][0-9]*`. -/
def json.afterInt (s : GoString) : Option GoString :=
  match s with
  | c :: cs =>
    if c = 0x30 then some cs
    else if 0x31 ≤ c && c ≤ 0x39 then some (cs.dropWhile json.isDigit)
    else none
  | [] => none

/-- The input after the optional fraction of a number, `. [0-9]+`. -/
def json.afterFrac (s : GoString) : Option GoString :=
  match s with
  | c :: cs => if c = 0x2E then json.afterDigits cs else some s
  | [] => some s

/-- The input after the optional exponent of a number, `[eE] [+-]? [0-9]+`. -/
def json.afterExp (s : GoString) : Option GoString :=
  match s with
  | c :: cs =>
    if c = 0x65 || c = 0x45 then
      match cs with
      | g :: gs => if g = 0x2B || g = 0x2D then json.afterDigits gs else json.afterDigits cs
      | [] => none
    else some s
  | [] => some s

/-- The input after a JSON number literal at the head of `s`
(`-? (0 | [1-9][0-9]*) (. [0-9]+)? ([eE] [+-]? [0-9]+)?`), if there is one. -/
def json.afterNumber (s : GoString) : Option GoString :=
  ((json.afterInt (json.afterMinus s)).bind json.afterFrac).bind json.afterExp

/-- A value that is no object and no array, at the head of `s`: a string, one of the
literals `true`, `false`, `null`, or a number; returns the value and the input that
follows it. -/
def json.parseScalar (s : GoString) : Option (Json × GoString) :=
  match s with
  | [] => none
  | c :: cs =>
    if c = 0x22 then (json.parseString cs [] 0 0).map (fun p => (Json.string p.1, p.2))
    else if strings.HasPrefix s (go "true") then some (Json.bool true, s.drop 4)
    else if strings.HasPrefix s (go "false") then some (Json.bool false, s.drop 5)
    else if strings.HasPrefix s (go "null") then some (Json.null, s.drop 4)
    else
      match json.afterNumber s with
      | some rest => some (Json.number (s.take (s.length - rest.length)), rest)
      | none => none

mutual
/-- One JSON value at the head of the input (after white space); returns the value and the
input that follows it.  The fuel bounds the depth of the calls; `json.parse` gives enough
of it. -/
def json.parseValue : Nat → GoString → Option (Json × GoString)
  | 0, _ => none
  | fuel + 1, s =>
    match json.skipSpace s with
    | [] => none
    | c :: cs =>
      if c = 0x7B then
        match json.skipSpace cs with
        | [] => none
        | d :: ds =>
          if d = 0x7D then some (Json.object [], ds)
          else (json.parseMembers fuel (d :: ds)).map (fun p => (Json.object p.1, p.2))
      else if c = 0x5B then
        match json.skipSpace cs with
        | [] => none
        | d :: ds =>
          if d = 0x5D then some (Json.array [], ds)
          else (json.parseElements fuel (d :: ds)).map (fun p => (Json.array p.1, p.2))
      else json.parseScalar (c :: cs)
/-- The members of an object, from the first key to the closing brace. -/
def json.parseMembers : Nat → GoString → Option (List (GoString × Json) × GoString)
  | 0, _ => none
  | fuel + 1, s =>
    match json.skipSpace s with
    | [] => none
    | q :: cs =>
      if q = 0x22 then
        match json.parseString cs [] 0 0 with
        | none => none
        | some (key, s1) =>
          match json.skipSpace s1 with
          | [] => none
          | colon :: s2 =>
            if colon = 0x3A then
              match json.parseValue fuel s2 with
              | none => none
              | some (v, s3) =>
                match json.skipSpace s3 with
                | [] => none
                | e :: s4 =>
                  if e = 0x7D then some ([(key, v)], s4)
                  else if e = 0x2C then
                    (json.parseMembers fuel s4).map (fun p => ((key, v) :: p.1, p.2))
                  else none
            else none
      else none
/-- The elements of an array, from the first element to the closing bracket. -/
def json.parseElements : Nat → GoString → Option (List Json × GoString)
  | 0, _ => none
  | fuel + 1, s =>
    match json.parseValue fuel s with
    | none => none
    | some (v, s1) =>
      match json.skipSpace s1 with
      | [] => none
      | e :: s2 =>
        if e = 0x5D then some ([v], s2)
        else if e = 0x2C then (json.parseElements fuel s2).map (fun p => (v :: p.1, p.2))
        else none
end

/-- The JSON text `data` as a value: one value, white space around it, nothing else
(`checkValid` followed by the decoder's reading of the value).  The fuel is enough for
every input: more of it gives the same result (`json.parseValue_fuel`). -/
def json.parse (data : GoString) : Option Json :=
  match json.parseValue (2 * data.length + 2) data with
  | some (v, rest) => if (json.skipSpace rest).isEmpty then some v else none
  | none => none

/-- The case folding under which the decoder matches an object key with a field name
that consists of ASCII letters other than `k` and `s`: upper case of the ASCII letters. -/
def json.foldName (s : GoString) : GoString :=
  s.map (fun c => if 0x61 ≤ c && c ≤ 0x7A then c - 0x20 else c)

/-- The decoder on one member `key: v` of an object decoded into a `Config`: a key that
matches a field sets it from a value of the field's kind, leaves it alone on `null`, and
is a type error (`UnmarshalTypeError`) on any other value; a number decoded into the
`int` field has to be an integer literal within `int`.  Keys that match no field are
skipped. -/
def json.setField (intSize : Nat) (config : Config) (key : GoString) (v : Json) :
    Except GoError Config :=
  if json.foldName key = json.foldName Config.forwardUrlKey then
    match v with
    | .string s => .ok { config with ForwardUrl := s }
    | .null => .ok config
    | _ => .error "json: cannot unmarshal value into Go struct field of type string"
  else if json.foldName key = json.foldName Config.capacityKey then
    match v with
    | .number lit =>
      match strconv.ParseInt lit 64 with
      | .ok n =>
        if -(2 ^ (intSize - 1) : Int) ≤ n ∧ n < 2 ^ (intSize - 1) then
          .ok { config with Capacity := n }
        else .error "json: cannot unmarshal number into Go struct field of type int"
      | .error _ => .error "json: cannot unmarshal number into Go struct field of type int"
    | .null => .ok config
    | _ => .error "json: cannot unmarshal value into Go struct field of type int"
  else .ok config

/-- The members of an object decoded into `config`, in the order of the text (a later
member for the same field overrides an earlier one). -/
def json.setFields (intSize : Nat) : List (GoString × Json) → Config → Except GoError Config
  | [], config => .ok config
  | (key, v) :: rest, config =>
    match json.setField intSize config key v with
    | .ok config1 => json.setFields intSize rest config1
    | .error e => .error e

/-- The Go call `json.Unmarshal(data, &config)` for a `Config`: a syntax error when `data`
is no JSON text, nothing to do on `null`, the fields set from the members of an object,
and a type error on any other value.  The result is the `Config` afterwards, or the
error. -/
def json.Unmarshal (intSize : Nat) (data : GoString) (config : Config) :
    Except GoError Config :=
  match json.parse data with
  | none => .error "invalid character or unexpected end of JSON input"
  | some .null => .ok config
  | some (.object members) => json.setFields intSize members config
  | some _ => .error "json: cannot unmarshal value into Go value of type main.Config"

/-! ## `net/url` -/

/-- The Go function `strings.Index(s, sub)`: the index of the first occurrence of `sub`. -/
def strings.Index (sub : GoString) : GoString → Option Nat
  | [] => if sub.isEmpty then some 0 else none
  | c :: cs =>
    if sub.isPrefixOf (c :: cs) then some 0 else (strings.Index sub cs).map (· + 1)

/-- The Go function `strings.LastIndex(s, sub)`: the index of the last occurrence of `sub`. -/
def strings.LastIndex (sub : GoString) : GoString → Option Nat
  | [] => if sub.isEmpty then some 0 else none
  | c :: cs =>
    match strings.LastIndex sub cs with
    | some i => some (i + 1)
    | none => if sub.isPrefixOf (c :: cs) then some 0 else none

/-- The check `stringContainsCTLByte`: some byte is an ASCII control character. -/
def url.stringContainsCTLByte (s : GoString) : Bool := s.any (fun b => b < 0x20 || b = 0x7F)

/-- An ASCII letter. -/
def url.isLetter (c : UInt8) : Bool := (0x61 ≤ c && c ≤ 0x7A) || (0x41 ≤ c && c ≤ 0x5A)

/-- The loop of `getScheme(rawURL)`: `i` is the index of the head of the bytes still to be
looked at.  Returns the scheme (empty if there is none) and the rest. -/
def url.getSchemeLoop (rawURL : GoString) : GoString → Nat → Except GoError (GoString × GoString)
  | [], _ => .ok ([], rawURL)
  | c :: cs, i =>
    if url.isLetter c then url.getSchemeLoop rawURL cs (i + 1)
    else if (0x30 ≤ c && c ≤ 0x39) || c = 0x2B || c = 0x2D || c = 0x2E then
      if i = 0 then .ok ([], rawURL) else url.getSchemeLoop rawURL cs (i + 1)
    else if c = 0x3A then
      if i = 0 then .error "missing protocol scheme" else .ok (rawURL.take i, cs)
    else .ok ([], rawURL)

/-- The function `getScheme` of `net/url`: splits a leading `scheme:` off. -/
def url.getScheme (rawURL : GoString) : Except GoError (GoString × GoString) :=
  url.getSchemeLoop rawURL rawURL 0

/-- The modes of `unescape` that parsing a URL uses. -/
inductive url.encoding where
  | encodePath
  | encodeHost
  | encodeZone
  | encodeUserPassword
  deriving DecidableEq, Repr

/-- The function `shouldEscape(c, encodeHost)`: whether the byte may not stand unescaped
in a host name. -/
def url.shouldEscapeHost (c : UInt8) : Bool :=
  if url.isLetter c || (0x30 ≤ c && c ≤ 0x39) then false
  -- ! $ & ' ( ) * + , ; = : [ ] < > "
  else if c ∈ [0x21, 0x24, 0x26, 0x27, 0x28, 0x29, 0x2A, 0x2B, 0x2C, 0x3B, 0x3D, 0x3A,
      0x5B, 0x5D, 0x3C, 0x3E, 0x22] then false
  -- - _ . ~
  else if c ∈ [0x2D, 0x5F, 0x2E, 0x7E] then false
  else true

/-- Whether `unescape(s, mode)` returns without an error: every `%` is followed by two
hexadecimal digits; in a host an escape may only stand for a non-ASCII byte (or be
`%25`), in a zone only for a byte that could be written directly (or a space, or be
`%25`), and a byte of a host or zone that would have to be escaped is an error. -/
def url.unescapeOk (mode : url.encoding) : GoString → Bool
  | [] => true
  | c :: cs =>
    if c = 0x25 then
      match cs with
      | h1 :: h2 :: rest =>
        match json.unhex h1, json.unhex h2 with
        | some v1, some v2 =>
          if mode = .encodeHost && v1 < 8 && !(h1 = 0x32 && h2 = 0x35) then false
          else if mode = .encodeZone && !(h1 = 0x32 && h2 = 0x35) && v1 * 16 + v2 ≠ 0x20
              && url.shouldEscapeHost (v1 * 16 + v2).toUInt8 then false
          else url.unescapeOk mode rest
        | _, _ => false
      | _ => false
    else if (mode = .encodeHost || mode = .encodeZone) && c < 0x80 && url.shouldEscapeHost c then
      false
    else url.unescapeOk mode cs

/-- The function `validOptionalPort`: empty, or a colon followed by decimal digits. -/
def url.validOptionalPort (port : GoString) : Bool :=
  match port with
  | [] => true
  | c :: cs => c = 0x3A && cs.all json.isDigit

/-- The function `validUserinfo`: letters, digits and `- . _ : ~ ! $ & ' ( ) * + , ; = % @`. -/
def url.validUserinfo (s : GoString) : Bool :=
  s.all (fun c => url.isLetter c || (0x30 ≤ c && c ≤ 0x39) ||
    c ∈ [0x2D, 0x2E, 0x5F, 0x3A, 0x7E, 0x21, 0x24, 0x26, 0x27, 0x28, 0x29, 0x2A, 0x2B, 0x2C,
      0x3B, 0x3D, 0x25, 0x40])

/-- Whether `parseHost(host)` returns without an error. -/
def url.parseHostOk (host : GoString) : Bool :=
  if strings.HasPrefix host [0x5B] then
    match strings.LastIndex [0x5D] host with
    | none => false
    | some i =>
      if !url.validOptionalPort (host.drop (i + 1)) then false
      else
        match strings.Index (go "%25") (host.take i) with
        | some zone =>
          url.unescapeOk .encodeHost (host.take zone)
            && url.unescapeOk .encodeZone ((host.take i).drop zone)
            && url.unescapeOk .encodeHost (host.drop i)
        | none => url.unescapeOk .encodeHost host
  else
    match strings.LastIndex [0x3A] host with
    | some i => url.validOptionalPort (host.drop i) && url.unescapeOk .encodeHost host
    | none => url.unescapeOk .encodeHost host

/-- Whether `parseAuthority(authority)` returns without an error. -/
def url.parseAuthorityOk (authority : GoString) : Bool :=
  match strings.LastIndex [0x40] authority with
  | none => url.parseHostOk authority
  | some i =>
    let userinfo := authority.take i
    url.parseHostOk (authority.drop (i + 1)) && url.validUserinfo userinfo &&
      (match strings.Index [0x3A] userinfo with
       | none => url.unescapeOk .encodeUserPassword userinfo
       | some j => url.unescapeOk .encodeUserPassword (userinfo.take j)
           && url.unescapeOk .encodeUserPassword (userinfo.drop (j + 1)))

/-- The part of `rest` before its first question mark (all of it if there is none): what
`parse` keeps for the authority and the path once the query is cut off. -/
def url.beforeQuery (rest : GoString) : GoString :=
  match strings.Index [0x3F] rest with
  | some q => rest.take q
  | none => rest

/-- The error of the Go function `url.ParseRequestURI(rawURL)`, if it returns one (the
function `parse(rawURL, true)` of `net/url`, Go 1.21): the URL "is interpreted only as
an absolute URI or an absolute path". -/
def url.ParseRequestURI (rawURL : GoString) : Option GoError :=
  if url.stringContainsCTLByte rawURL then some "net/url: invalid control character in URL"
  else if rawURL.isEmpty then some "empty url"
  else if rawURL = go "*" then none
  else
    match url.getScheme rawURL with
    | .error e => some e
    | .ok (scheme, rest0) =>
      -- the query is cut off at the first question mark
      let rest := url.beforeQuery rest0
      if !strings.HasPrefix rest (go "/") then
        -- a rootless path after a scheme is taken as it is
        if !scheme.isEmpty then none else some "invalid URI for request"
      else if !scheme.isEmpty && strings.HasPrefix rest (go "//") then
        let authority := match strings.Index [0x2F] (rest.drop 2) with
          | some i => (rest.drop 2).take i
          | none => rest.drop 2
        let path := match strings.Index [0x2F] (rest.drop 2) with
          | some i => (rest.drop 2).drop i
          | none => []
        if !url.parseAuthorityOk authority then some "invalid authority"
        else if !url.unescapeOk .encodePath path then some "invalid URL escape"
        else none
      else if !url.unescapeOk .encodePath rest then some "invalid URL escape"
      else none

/-! ## `net/http` and `httprouter` -/

/-- A Go map from names to lists of values (`url.Values`, `http.Header`), as the list of
its entries. -/
abbrev Values := List (GoString × List GoString)

/-- The methods `url.Values.Get(key)` and `http.Header.Get(key)` (for a key in canonical
form): the first value stored under the key, `""` if there is none. -/
def Values.Get (v : Values) (key : GoString) : GoString :=
  match v.lookup key with
  | some (x :: _) => x
  | _ => []

/-- The body of a request as a reader: the bytes it yields, then the read error that ends it
(`none` for `io.EOF`). -/
structure Body where
  data : GoString
  err : Option GoError
  deriving DecidableEq, Repr

/-- The fields of `url.URL` that the handlers use; `Query` is the value of `r.URL.Query()`. -/
structure URL where
  Path : GoString
  Query : Values
  deriving DecidableEq, Repr

/-- The fields of `http.Request` that the handlers use. -/
structure Request where
  Method : GoString
  URL : URL
  Header : Values
  Body : Body
  deriving DecidableEq, Repr

/-- The parameters of a route, `httprouter.Params`: keys with their values. -/
abbrev Params := List (GoString × GoString)

/-- The method `httprouter.Params.ByName(name)`: the value of the first parameter with that
key, `""` if there is none. -/
def Params.ByName (ps : Params) (name : GoString) : GoString :=
  (ps.lookup name).getD []

/-- One call on a `http.ResponseWriter`; `Error` is a call of `http.Error(w, msg, code)`. -/
inductive RespOp where
  | SetHeader (key value : GoString)
  | WriteHeader (status : Nat)
  | Write (data : GoString)
  | Error (msg : GoError) (code : Nat)
  deriving DecidableEq, Repr

/-- A `http.ResponseWriter`: the calls made on it so far, in order. -/
abbrev ResponseWriter := List RespOp

/-- The status the client receives: that of the first `WriteHeader` (`http.Error` calls
`WriteHeader`, and a `Write` before any `WriteHeader` sends 200); `none` if nothing was
written. -/
def ResponseWriter.status : ResponseWriter → Option Nat
  | [] => none
  | .SetHeader _ _ :: rest => ResponseWriter.status rest
  | .WriteHeader n :: _ => some n
  | .Write _ :: _ => some 200
  | .Error _ n :: _ => some n

/-- The call `ioutil.ReadAll(io.LimitReader(body, n))`: at most `n` bytes of the body, and
the read error if it comes before them. -/
def ReadAllLimit (body : Body) (n : Nat) : GoString × Option GoError :=
  if n ≤ body.data.length then (body.data.take n, none) else (body.data, body.err)

/-! ## The basket engine -/

/-- Modelled from the spec: the type of `basket.Requests` (`baskets.go`) is not part of the
sources.  "An ordered sequence of Request Records with a maximum length (the owning Basket's
capacity)" and a "total-insertions counter"; the records are kept oldest first. -/
structure RequestLog where
  Capacity : Int
  Count : Nat
  records : List Request
  deriving DecidableEq, Repr

/-- Modelled from the spec: the method `Requests.Add` (`baskets.go`) is not part of the
sources.  "Appends `record`. If the log is at capacity, evicts the oldest record first,
then appends". -/
def RequestLog.Add (log : RequestLog) (r : Request) : RequestLog :=
  let kept := if log.Capacity ≤ (log.records.length : Int) then log.records.drop 1 else log.records
  { log with records := kept ++ [r], Count := log.Count + 1 }

/-- Modelled from the spec: the method `Requests.Clear` (`baskets.go`) is not part of the
sources.  "Atomically empties the log"; the counter of insertions "is monotonically
increasing". -/
def RequestLog.Clear (log : RequestLog) : RequestLog :=
  { log with records := [] }

/-- Modelled from the spec: the type `Basket` (`baskets.go`) is not part of the sources.
"A named entity combining a configuration (capacity, optional forward URL), an access
token, and one Bounded Request Log"; `handlers.go` reads the fields `Token` and
`Requests`. -/
structure Basket where
  Name : GoString
  Token : GoString
  Config : Config
  Requests : RequestLog
  deriving DecidableEq, Repr

/-- Modelled from the spec: the type of `basketDb` (`baskets.go`) is not part of the
sources.  "A mapping from basket name to Basket", here the baskets in the order of their
creation. -/
abbrev BasketDb := List Basket

/-- Modelled from the spec: the method `basketDb.Get` (`baskets.go`) is not part of the
sources.  "Pure lookup; does not authenticate". -/
def BasketDb.Get (db : BasketDb) (name : GoString) : Option Basket :=
  db.find? (fun b => b.Name = name)

/-- Modelled from the spec: the method `basketDb.Create` (`baskets.go`) is not part of the
sources.  "Fails with Conflict if `name` already exists. On success, allocates a new
Basket with a freshly generated token, the given configuration, and an empty Bounded
Request Log; stores it under `name`; returns the Basket".  The fresh token is an
argument. -/
def BasketDb.Create (db : BasketDb) (name : GoString) (config : Config) (token : GoString) :
    Except GoError Basket × BasketDb :=
  match BasketDb.Get db name with
  | some _ => (.error "basket with such name already exists", db)
  | none =>
    let basket : Basket :=
      { Name := name, Token := token, Config := config,
        Requests := { Capacity := config.Capacity, Count := 0, records := [] } }
    (.ok basket, db ++ [basket])

/-- Modelled from the spec: the method `basketDb.Delete` (`baskets.go`) is not part of the
sources.  "Removes the basket and its log". -/
def BasketDb.Delete (db : BasketDb) (name : GoString) : BasketDb :=
  db.filter (fun b => b.Name ≠ name)

/-- A method call through a `*Basket` that changes the log of the basket: the basket the
registry holds under that name gets the new log. -/
def BasketDb.updateRequests (db : BasketDb) (name : GoString) (f : RequestLog → RequestLog) :
    BasketDb :=
  match db with
  | [] => []
  | b :: rest =>
    if b.Name = name then { b with Requests := f b.Requests } :: rest
    else b :: BasketDb.updateRequests rest name f

/-- The calls the handlers make on the engine and on the two validating library functions,
as they are recorded in the state. -/
inductive Call where
  | dbGet (name : GoString)
  | dbCreate (name : GoString) (config : Config)
  | dbDelete (name : GoString)
  | dbToJson (max skip : Int)
  | basketToJson (name : GoString)
  | basketToAuthJson (name : GoString)
  | requestsToJson (name : GoString) (max skip : Int)
  | requestsClear (name : GoString)
  | requestsAdd (name : GoString) (r : Request)
  | jsonUnmarshal (data : GoString)
  | urlParseRequestURI (rawURL : GoString)
  deriving DecidableEq, Repr

/-- The state the handlers run in: the registry `basketDb`, the number of tokens generated
so far, and the calls made so far (oldest first). -/
structure World where
  db : BasketDb
  tokens : Nat
  calls : List Call
  deriving DecidableEq, Repr

/-- What `handlers.go` uses and the sources at hand do not define: the two constants, the
width of `int`, the token generator and the serialisers of the engine (each returns the
JSON text and an error, as in Go). -/
structure Env where
  DEFAULT_PAGE_SIZE : Int
  DEFAULT_BASKET_CAPACITY : Int
  intSize : Nat
  GenerateToken : Nat → GoString
  DbToJson : BasketDb → Int → Int → GoString × Option GoError
  BasketToJson : Basket → GoString × Option GoError
  BasketToAuthJson : Basket → GoString × Option GoError
  RequestsToJson : RequestLog → Int → Int → GoString × Option GoError

/-- Records a call. -/
def World.call (s : World) (c : Call) : World := { s with calls := s.calls ++ [c] }

/-- The calls made between the state `s` and the later state `t`. -/
def World.newCalls (s t : World) : List Call := t.calls.drop s.calls.length

/-- The call `basketDb.Get(name)`. -/
def World.Get (s : World) (name : GoString) : Option Basket × World :=
  (BasketDb.Get s.db name, s.call (.dbGet name))

/-- The call `basketDb.Create(name, config)`; a token is generated when the basket is
created. -/
def World.Create (env : Env) (s : World) (name : GoString) (config : Config) :
    Except GoError Basket × World :=
  match BasketDb.Create s.db name config (env.GenerateToken s.tokens) with
  | (.ok basket, db) =>
    (.ok basket, { s.call (.dbCreate name config) with db := db, tokens := s.tokens + 1 })
  | (.error err, db) => (.error err, { s.call (.dbCreate name config) with db := db })

/-- The call `basketDb.Delete(name)`. -/
def World.Delete (s : World) (name : GoString) : World :=
  { s.call (.dbDelete name) with db := BasketDb.Delete s.db name }

/-- The call `basketDb.ToJson(max, skip)`. -/
def World.ToJson (env : Env) (s : World) (max skip : Int) :
    (GoString × Option GoError) × World :=
  (env.DbToJson s.db max skip, s.call (.dbToJson max skip))

/-- The call `basket.ToJson()`. -/
def World.BasketToJson (env : Env) (s : World) (basket : Basket) :
    (GoString × Option GoError) × World :=
  (env.BasketToJson basket, s.call (.basketToJson basket.Name))

/-- The call `basket.ToAuthJson()`. -/
def World.BasketToAuthJson (env : Env) (s : World) (basket : Basket) :
    (GoString × Option GoError) × World :=
  (env.BasketToAuthJson basket, s.call (.basketToAuthJson basket.Name))

/-- The call `basket.Requests.ToJson(max, skip)`. -/
def World.RequestsToJson (env : Env) (s : World) (basket : Basket) (max skip : Int) :
    (GoString × Option GoError) × World :=
  (env.RequestsToJson basket.Requests max skip, s.call (.requestsToJson basket.Name max skip))

/-- The call `basket.Requests.Clear()`. -/
def World.RequestsClear (s : World) (basket : Basket) : World :=
  { s.call (.requestsClear basket.Name) with
    db := BasketDb.updateRequests s.db basket.Name RequestLog.Clear }

/-- The call `basket.Requests.Add(r)`. -/
def World.RequestsAdd (s : World) (basket : Basket) (r : Request) : World :=
  { s.call (.requestsAdd basket.Name r) with
    db := BasketDb.updateRequests s.db basket.Name (fun log => log.Add r) }

/-- The call `json.Unmarshal(body, &config)`. -/
def World.Unmarshal (env : Env) (s : World) (body : GoString) (config : Config) :
    Except GoError Config × World :=
  (json.Unmarshal env.intSize body config, s.call (.jsonUnmarshal body))

/-- The call `url.ParseRequestURI(rawURL)`, of which the handler keeps the error only. -/
def World.ParseRequestURI (s : World) (rawURL : GoString) : Option GoError × World :=
  (url.ParseRequestURI rawURL, s.call (.urlParseRequestURI rawURL))

/-! ## `handlers.go`

The calls of `log.Print` and `log.Printf` write to the log of the process and are left
out. -/

/-- The function `writeJson` of `handlers.go`. -/
def writeJson (w : ResponseWriter) (status : Nat) (json : GoString) (err : Option GoError) :
    ResponseWriter :=
  match err with
  | some e => w ++ [.Error e 500]
  | none =>
    w ++ [.SetHeader (go "Content-Type") (go "application/json; charset=UTF-8"),
          .WriteHeader status, .Write json]

/-- The function `getIntParam` of `handlers.go`. -/
def getIntParam (env : Env) (r : Request) (name : GoString) (defaultValue : Int) : Int :=
  let value := Values.Get r.URL.Query name
  if value.length > 0 then
    match strconv.Atoi env.intSize value with
    | .ok i => i
    | .error _ => defaultValue
  else defaultValue

/-- The function `getAndAuthBasket` of `handlers.go`. -/
def getAndAuthBasket (s : World) (w : ResponseWriter) (r : Request) (ps : Params) :
    World × ResponseWriter × GoString × Option Basket :=
  let name := Params.ByName ps (go "basket")
  let (basket, s) := s.Get name
  match basket with
  | some b =>
    -- maybe custom header, e.g. basket_key, basket_token
    if Values.Get r.Header (go "Authorization") = b.Token then (s, w, name, some b)
    else (s, w ++ [.WriteHeader 401], [], none)
  | none => (s, w ++ [.WriteHeader 404], [], none)

/-- The handler `GetBaskets` of `handlers.go`. -/
def GetBaskets (env : Env) (s : World) (w : ResponseWriter) (r : Request) (_ps : Params) :
    World × ResponseWriter :=
  let ((json, err), s) := s.ToJson env
    (getIntParam env r (go "max") env.DEFAULT_PAGE_SIZE)
    (getIntParam env r (go "skip") 0)
  (s, writeJson w 200 json err)

/-- The handler `GetBasket` of `handlers.go`. -/
def GetBasket (env : Env) (s : World) (w : ResponseWriter) (r : Request) (ps : Params) :
    World × ResponseWriter :=
  match getAndAuthBasket s w r ps with
  | (s, w, _, some basket) =>
    let ((json, err), s) := s.BasketToJson env basket
    (s, writeJson w 200 json err)
  | (s, w, _, none) => (s, w)

/-- Lines 100 to 106 of `CreateBasket`: the basket is created and the outcome written. -/
def CreateBasket.create (env : Env) (s : World) (w : ResponseWriter) (name : GoString)
    (config : Config) : World × ResponseWriter :=
  match s.Create env name config with
  | (.error err, s) => (s, w ++ [.Error err 409])
  | (.ok basket, s) =>
    let ((json, err), s) := s.BasketToAuthJson env basket
    (s, writeJson w 201 json err)

/-- The handler `CreateBasket` of `handlers.go`. -/
def CreateBasket (env : Env) (s : World) (w : ResponseWriter) (r : Request) (ps : Params) :
    World × ResponseWriter :=
  let name := Params.ByName ps (go "basket")
  -- read config (max 2 kB)
  match ReadAllLimit r.Body 2048 with
  | (_, some err) => (s, w ++ [.Error err 400])
  | (body, none) =>
    -- default config
    let config : Config := { ForwardUrl := [], Capacity := env.DEFAULT_BASKET_CAPACITY }
    if body.length > 0 then
      -- parse request
      match s.Unmarshal env body config with
      | (.error err, s) => (s, w ++ [.Error err 422])
      | (.ok config, s) =>
        -- validate URL
        if config.ForwardUrl.length > 0 then
          match s.ParseRequestURI config.ForwardUrl with
          | (some err, s) => (s, w ++ [.Error err 422])
          | (none, s) => CreateBasket.create env s w name config
        else CreateBasket.create env s w name config
    else CreateBasket.create env s w name config

/-- The handler `UpdateBasket` of `handlers.go`. -/
def UpdateBasket (s : World) (w : ResponseWriter) (r : Request) (ps : Params) :
    World × ResponseWriter :=
  match getAndAuthBasket s w r ps with
  | (s, w, _, some _) =>
    -- TODO: update basket configuration
    (s, w ++ [.WriteHeader 204])
  | (s, w, _, none) => (s, w)

/-- The handler `DeleteBasket` of `handlers.go`. -/
def DeleteBasket (s : World) (w : ResponseWriter) (r : Request) (ps : Params) :
    World × ResponseWriter :=
  match getAndAuthBasket s w r ps with
  | (s, w, name, some _) => (s.Delete name, w ++ [.WriteHeader 204])
  | (s, w, _, none) => (s, w)

/-- The handler `GetBasketRequests` of `handlers.go`. -/
def GetBasketRequests (env : Env) (s : World) (w : ResponseWriter) (r : Request)
    (ps : Params) : World × ResponseWriter :=
  match getAndAuthBasket s w r ps with
  | (s, w, _, some basket) =>
    let ((json, err), s) := s.RequestsToJson env basket
      (getIntParam env r (go "max") env.DEFAULT_PAGE_SIZE)
      (getIntParam env r (go "skip") 0)
    (s, writeJson w 200 json err)
  | (s, w, _, none) => (s, w)

/-- The handler `ClearBasket` of `handlers.go`. -/
def ClearBasket (s : World) (w : ResponseWriter) (r : Request) (ps : Params) :
    World × ResponseWriter :=
  match getAndAuthBasket s w r ps with
  | (s, w, _, some basket) => (s.RequestsClear basket, w ++ [.WriteHeader 204])
  | (s, w, _, none) => (s, w)

/-- The handler `AcceptBasketRequests` of `handlers.go`; `none` is the run-time panic of
an index out of range. -/
def AcceptBasketRequests (s : World) (w : ResponseWriter) (r : Request) :
    Option (World × ResponseWriter) :=
  let parts := strings.Split r.URL.Path (go "/")
  match parts[1]? with
  | none => none
  | some name =>
    let (basket, s) := s.Get name
    match basket with
    | some b => some (s.RequestsAdd b r, w ++ [.WriteHeader 200])
    | none => some (s, w ++ [.WriteHeader 404])

/-! ## A concrete environment and state, for the examples -/

/-- An environment with the default capacity 200, the page size 20, a 64-bit `int`,
tokens `"t0"`, `"t1"`, ... (by length) and serialisers that write the token of a
basket, nothing else. -/
def env0 : Env where
  DEFAULT_PAGE_SIZE := 20
  DEFAULT_BASKET_CAPACITY := 200
  intSize := 64
  GenerateToken := fun n => go "t" ++ List.replicate n 0x30
  DbToJson := fun _ _ _ => ([], none)
  BasketToJson := fun _ => ([], none)
  BasketToAuthJson := fun b => (b.Token, none)
  RequestsToJson := fun _ _ _ => ([], none)

/-- The environment `env0` with a `ToAuthJson` that returns an error. -/
def envMarshalError : Env :=
  { env0 with BasketToAuthJson := fun _ => ([], some "json: error calling MarshalJSON") }

/-- The basket `demo` with the token `secret`, the default configuration and an empty
log. -/
def demoBasket : Basket where
  Name := go "demo"
  Token := go "secret"
  Config := { ForwardUrl := [], Capacity := 200 }
  Requests := { Capacity := 200, Count := 0, records := [] }

/-- A state whose registry holds the basket `demo` only. -/
def world0 : World where
  db := [demoBasket]
  tokens := 1
  calls := []

/-- A request with the given path, `Authorization` header and body, and no query. -/
def mkRequest (method path auth body : String) : Request where
  Method := go method
  URL := { Path := go path, Query := [] }
  Header := [(go "Authorization", [go auth])]
  Body := { data := go body, err := none }

/-! ## Notions used to state the properties -/

/-- Whether a call is a call of `basketDb.Create`. -/
def Call.isCreate : Call → Bool
  | .dbCreate _ _ => true
  | _ => false

/-- The basket `basketDb.Create` makes in the state `s`. -/
def World.fresh (env : Env) (s : World) (name : GoString) (config : Config) : Basket :=
  { Name := name, Token := env.GenerateToken s.tokens, Config := config,
    Requests := { Capacity := config.Capacity, Count := 0, records := [] } }

/-- Whether a URL is absolute, that is begins with a scheme `scheme:`. -/
def hasScheme (u : GoString) : Bool :=
  match url.getScheme u with
  | .ok (scheme, _) => !scheme.isEmpty
  | .error _ => false

/-- An absolute path as `url.ParseRequestURI` takes it: the text begins with a slash, holds
no ASCII control byte, and every `%` before its first question mark is followed by two
hexadecimal digits. -/
def isAbsolutePath (u : GoString) : Bool :=
  strings.HasPrefix u (go "/") && !url.stringContainsCTLByte u &&
    url.unescapeOk .encodePath (url.beforeQuery u)

/-- The first segment of a path that begins with a slash: the bytes between that slash and
the next one (or the end). -/
def firstSegment (path : GoString) : GoString := (path.drop 1).takeWhile (fun c => c ≠ 0x2F)

/-- The number that decimal digits spell, continuing from `n`. -/
def decimalValue (n : Nat) (digits : GoString) : Nat :=
  digits.foldl (fun n c => 10 * n + (c.toNat - 0x30)) n

/-- The integer a decimal integer literal spells: an optional sign `+` or `-` followed by
one decimal digit or more; `none` for any other text. -/
def decimalLiteral (v : GoString) : Option Int :=
  match v with
  | [] => none
  | c :: cs =>
    if c = 0x2B then
      if cs ≠ [] ∧ cs.all json.isDigit then some (decimalValue 0 cs : Nat) else none
    else if c = 0x2D then
      if cs ≠ [] ∧ cs.all json.isDigit then some (-(decimalValue 0 cs : Nat)) else none
    else if (c :: cs).all json.isDigit then some (decimalValue 0 (c :: cs) : Nat) else none

/-! ## Theorems -/

/-! ### The fuel of the JSON parser -/

/-- Stepping over white space does not lengthen the input. -/
theorem json.skipSpace_length (s : GoString) : (json.skipSpace s).length ≤ s.length := by
  induction s with
  | nil => simp [json.skipSpace]
  | cons c cs ih =>
    simp only [json.skipSpace]
    split
    · simp only [List.length_cons]; omega
    · exact Nat.le_refl _

/-- What is left after white space and one more byte is shorter than the input. -/
theorem json.skipSpace_cons_length (s : GoString) (c : UInt8) (cs : GoString)
    (h : json.skipSpace s = c :: cs) : cs.length < s.length := by
  have := json.skipSpace_length s
  rw [h] at this
  simpa using this

/-- The input after a string is shorter than the input at its start. -/
theorem json.parseString_length :
    ∀ (s acc : GoString) (raw skip : Nat) (str rest : GoString),
      json.parseString s acc raw skip = some (str, rest) → rest.length < s.length := by
  intro s
  induction s with
  | nil =>
    intro acc raw skip str rest h
    simp [json.parseString] at h
  | cons c cs ih =>
    intro acc raw skip str rest h
    cases skip with
    | succ k =>
      simp only [json.parseString] at h
      have := ih _ _ _ _ _ h
      simp only [List.length_cons]; omega
    | zero =>
      cases raw with
      | succ k =>
        simp only [json.parseString] at h
        have := ih _ _ _ _ _ h
        simp only [List.length_cons]; omega
      | zero =>
        simp only [json.parseString] at h
        split at h
        · cases h; simp
        · split at h
          · cases h
          · split at h
            · split at h
              · cases h
              · have := ih _ _ _ _ _ h
                simp only [List.length_cons]; omega
            · split at h
              · have := ih _ _ _ _ _ h
                simp only [List.length_cons]; omega
              · split at h
                · have := ih _ _ _ _ _ h
                  simp only [List.length_cons]; omega
                · have := ih _ _ _ _ _ h
                  simp only [List.length_cons]; omega

/-- The input after digits is not longer than the input at their start. -/
theorem json.afterDigits_length (s rest : GoString) (h : json.afterDigits s = some rest) :
    rest.length ≤ s.length := by
  unfold json.afterDigits at h
  split at h
  · split at h
    · cases h
      have := (List.dropWhile_sublist json.isDigit (l := ‹List UInt8›)).length_le
      simp only [List.length_cons]; omega
    · cases h
  · cases h

/-- The input after the integer part of a number is not longer than the input at its start. -/
theorem json.afterInt_length (s rest : GoString) (h : json.afterInt s = some rest) :
    rest.length ≤ s.length := by
  unfold json.afterInt at h
  split at h
  · split at h
    · cases h; simp
    · split at h
      · cases h
        have := (List.dropWhile_sublist json.isDigit (l := ‹List UInt8›)).length_le
        simp only [List.length_cons]; omega
      · cases h
  · cases h

/-- The input after the fraction of a number is not longer than the input at its start. -/
theorem json.afterFrac_length (s rest : GoString) (h : json.afterFrac s = some rest) :
    rest.length ≤ s.length := by
  unfold json.afterFrac at h
  split at h
  · split at h
    · have := json.afterDigits_length _ _ h
      simp only [List.length_cons]; omega
    · cases h; exact Nat.le_refl _
  · cases h; exact Nat.le_refl _

/-- The input after the exponent of a number is not longer than the input at its start. -/
theorem json.afterExp_length (s rest : GoString) (h : json.afterExp s = some rest) :
    rest.length ≤ s.length := by
  unfold json.afterExp at h
  split at h
  · split at h
    · split at h
      · split at h
        · have := json.afterDigits_length _ _ h
          simp only [List.length_cons]; omega
        · have := json.afterDigits_length _ _ h
          simp only [List.length_cons] at this ⊢; omega
      · cases h
    · cases h; exact Nat.le_refl _
  · cases h; exact Nat.le_refl _

/-- The input after a number is not longer than the input at its start. -/
theorem json.afterNumber_length (s rest : GoString) (h : json.afterNumber s = some rest) :
    rest.length ≤ s.length := by
  unfold json.afterNumber at h
  simp only [Option.bind_eq_some] at h
  obtain ⟨s3, ⟨s2, h1, h2⟩, h3⟩ := h
  have l1 := json.afterInt_length _ _ h1
  have l2 := json.afterFrac_length _ _ h2
  have l3 := json.afterExp_length _ _ h3
  have l0 : (json.afterMinus s).length ≤ s.length := by
    unfold json.afterMinus
    split
    · split
      · simp
      · exact Nat.le_refl _
    · exact Nat.le_refl _
  omega

/-- The input after a scalar is not longer than the input at its start. -/
theorem json.parseScalar_length (s : GoString) (v : Json) (rest : GoString)
    (h : json.parseScalar s = some (v, rest)) : rest.length ≤ s.length := by
  unfold json.parseScalar at h
  split at h
  · cases h
  · split at h
    · simp only [Option.map_eq_some'] at h
      obtain ⟨p, hp, hv⟩ := h
      obtain ⟨str, r⟩ := p
      have := json.parseString_length _ _ _ _ _ _ hp
      cases hv
      simp only [List.length_cons]; omega
    · split at h
      · cases h; simp only [List.length_drop, List.length_cons]; omega
      · split at h
        · cases h; simp only [List.length_drop, List.length_cons]; omega
        · split at h
          · cases h; simp only [List.length_drop, List.length_cons]; omega
          · split at h
            · rename_i r hr
              cases h
              exact json.afterNumber_length _ _ hr
            · cases h

/-- The input after a value, after the members of an object and after the elements of an
array is not longer than the input at their start. -/
theorem json.parse_length : ∀ (fuel : Nat),
    (∀ s v rest, json.parseValue fuel s = some (v, rest) → rest.length ≤ s.length) ∧
    (∀ s ms rest, json.parseMembers fuel s = some (ms, rest) → rest.length ≤ s.length) ∧
    (∀ s vs rest, json.parseElements fuel s = some (vs, rest) → rest.length ≤ s.length) := by
  intro fuel
  induction fuel with
  | zero => simp [json.parseValue, json.parseMembers, json.parseElements]
  | succ f ih =>
    obtain ⟨ihV, ihM, ihE⟩ := ih
    refine ⟨?_, ?_, ?_⟩
    · intro s v rest h
      simp only [json.parseValue] at h
      split at h
      · cases h
      · rename_i c cs hs
        have l0 := json.skipSpace_cons_length s c cs hs
        split at h
        · split at h
          · cases h
          · rename_i d ds hd
            have l1 := json.skipSpace_cons_length cs d ds hd
            split at h
            · cases h; omega
            · simp only [Option.map_eq_some'] at h
              obtain ⟨p, hp, hv⟩ := h
              obtain ⟨ms, r⟩ := p
              have l2 := ihM _ _ _ hp
              have l3 := json.skipSpace_length cs
              rw [hd] at l3
              cases hv
              dsimp only
              omega
        · split at h
          · split at h
            · cases h
            · rename_i d ds hd
              have l1 := json.skipSpace_cons_length cs d ds hd
              split at h
              · cases h; omega
              · simp only [Option.map_eq_some'] at h
                obtain ⟨p, hp, hv⟩ := h
                obtain ⟨ms, r⟩ := p
                have l2 := ihE _ _ _ hp
                have l3 := json.skipSpace_length cs
                rw [hd] at l3
                cases hv
                dsimp only
                omega
          · have l2 := json.parseScalar_length _ _ _ h
            have l3 := json.skipSpace_length s
            rw [hs] at l3
            omega
    · intro s ms rest h
      simp only [json.parseMembers] at h
      split at h
      · cases h
      · rename_i q cs hs
        have l0 := json.skipSpace_cons_length s q cs hs
        split at h
        · split at h
          · cases h
          · rename_i key s1 hk
            have l1 := json.parseString_length _ _ _ _ _ _ hk
            split at h
            · cases h
            · rename_i colon s2 hc
              have l2 := json.skipSpace_cons_length s1 colon s2 hc
              split at h
              · split at h
                · cases h
                · rename_i v s3 hv
                  have l3 := ihV _ _ _ hv
                  split at h
                  · cases h
                  · rename_i e s4 he
                    have l4 := json.skipSpace_cons_length s3 e s4 he
                    split at h
                    · cases h; omega
                    · split at h
                      · simp only [Option.map_eq_some'] at h
                        obtain ⟨p, hp, hq⟩ := h
                        obtain ⟨ms2, r⟩ := p
                        have l5 := ihM _ _ _ hp
                        cases hq
                        dsimp only
                        omega
                      · cases h
              · cases h
        · cases h
    · intro s vs rest h
      simp only [json.parseElements] at h
      split at h
      · cases h
      · rename_i v s1 hv
        have l1 := ihV _ _ _ hv
        split at h
        · cases h
        · rename_i e s2 he
          have l2 := json.skipSpace_cons_length s1 e s2 he
          split at h
          · cases h; omega
          · split at h
            · simp only [Option.map_eq_some'] at h
              obtain ⟨p, hp, hq⟩ := h
              obtain ⟨vs2, r⟩ := p
              have l3 := ihE _ _ _ hp
              cases hq
              dsimp only
              omega
            · cases h

/-- More fuel than twice the length of the input (and a little) does not change the result
of the parser. -/
theorem json.parse_stable : ∀ (fuel : Nat),
    (∀ s, 2 * s.length + 2 ≤ fuel → json.parseValue (fuel + 1) s = json.parseValue fuel s) ∧
    (∀ s, 2 * s.length + 1 ≤ fuel → json.parseMembers (fuel + 1) s = json.parseMembers fuel s) ∧
    (∀ s, 2 * s.length + 3 ≤ fuel →
      json.parseElements (fuel + 1) s = json.parseElements fuel s) := by
  intro fuel
  induction fuel with
  | zero =>
    refine ⟨?_, ?_, ?_⟩ <;> intro s hs <;> omega
  | succ g ih =>
    obtain ⟨ihV, ihM, ihE⟩ := ih
    refine ⟨?_, ?_, ?_⟩
    · intro s hs
      rw [json.parseValue, json.parseValue]
      cases h0 : json.skipSpace s with
      | nil => rfl
      | cons c cs =>
        have l0 := json.skipSpace_cons_length s c cs h0
        simp only
        cases h2 : json.skipSpace cs with
        | nil => rfl
        | cons d ds =>
          have l2 := json.skipSpace_length cs
          rw [h2] at l2
          simp only
          rw [ihM (d :: ds) (by omega), ihE (d :: ds) (by omega)]
    · intro s hs
      rw [json.parseMembers, json.parseMembers]
      cases h0 : json.skipSpace s with
      | nil => rfl
      | cons q cs =>
        have l0 := json.skipSpace_cons_length s q cs h0
        simp only
        cases h1 : json.parseString cs [] 0 0 with
        | none => rfl
        | some p =>
          obtain ⟨key, s1⟩ := p
          have l1 := json.parseString_length _ _ _ _ _ _ h1
          simp only
          cases h2 : json.skipSpace s1 with
          | nil => rfl
          | cons colon s2 =>
            have l2 := json.skipSpace_cons_length s1 colon s2 h2
            simp only
            rw [ihV s2 (by omega)]
            cases h3 : json.parseValue g s2 with
            | none => rfl
            | some pv =>
              obtain ⟨v, s3⟩ := pv
              have l3 := (json.parse_length g).1 _ _ _ h3
              simp only
              cases h4 : json.skipSpace s3 with
              | nil => rfl
              | cons e s4 =>
                have l4 := json.skipSpace_cons_length s3 e s4 h4
                simp only
                rw [ihM s4 (by omega)]
    · intro s hs
      rw [json.parseElements, json.parseElements]
      rw [ihV s (by omega)]
      cases h3 : json.parseValue g s with
      | none => rfl
      | some pv =>
        obtain ⟨v, s1⟩ := pv
        have l3 := (json.parse_length g).1 _ _ _ h3
        simp only
        cases h4 : json.skipSpace s1 with
        | nil => rfl
        | cons e s2 =>
          have l4 := json.skipSpace_cons_length s1 e s2 h4
          simp only
          rw [ihE s2 (by omega)]

/-- The fuel `json.parse` gives is enough: any greater amount yields the same value. -/
theorem json.parseValue_fuel (data : GoString) (fuel : Nat)
    (h : 2 * data.length + 2 ≤ fuel) :
    json.parseValue fuel data = json.parseValue (2 * data.length + 2) data := by
  induction fuel with
  | zero => omega
  | succ f ih =>
    by_cases hf : 2 * data.length + 2 ≤ f
    · rw [(json.parse_stable f).1 data hf]
      exact ih hf
    · have : f + 1 = 2 * data.length + 2 := by omega
      rw [this]

/-! ### The handlers -/


/-- The result of `getAndAuthBasket`, by the cases of the lookup and of the comparison. -/
theorem getAndAuthBasket_eq (s : World) (w : ResponseWriter) (r : Request) (ps : Params) :
    getAndAuthBasket s w r ps =
      match BasketDb.Get s.db (Params.ByName ps (go "basket")) with
      | some b =>
        if Values.Get r.Header (go "Authorization") = b.Token then
          (s.call (.dbGet (Params.ByName ps (go "basket"))), w, Params.ByName ps (go "basket"),
            some b)
        else (s.call (.dbGet (Params.ByName ps (go "basket"))), w ++ [.WriteHeader 401], [], none)
      | none => (s.call (.dbGet (Params.ByName ps (go "basket"))), w ++ [.WriteHeader 404], [], none) := by
  simp only [getAndAuthBasket, World.Get]

/-- A request that names no basket, or carries another value than the token of the basket
it names, makes `getAndAuthBasket` return no basket, after the lookup and one status. -/
theorem getAndAuthBasket_denied (s : World) (w : ResponseWriter) (r : Request) (ps : Params)
    (h : ∀ b, BasketDb.Get s.db (Params.ByName ps (go "basket")) = some b →
      Values.Get r.Header (go "Authorization") ≠ b.Token) :
    getAndAuthBasket s w r ps =
      (s.call (.dbGet (Params.ByName ps (go "basket"))),
        w ++ [.WriteHeader (if (BasketDb.Get s.db (Params.ByName ps (go "basket"))).isSome
          then 401 else 404)], [], none) := by
  rw [getAndAuthBasket_eq]
  cases hg : BasketDb.Get s.db (Params.ByName ps (go "basket")) with
  | none => rfl
  | some b => simp [h b hg]

/-- C1. `getAndAuthBasket` returns the name and the basket exactly when the registry holds
a basket under the name and the `Authorization` header equals its token, writing
nothing; in every other case it returns `("", nil)`, having written the status 404 when
there is no such basket and 401 when the header differs from the token. -/
theorem getAndAuthBasket_spec (s : World) (w : ResponseWriter) (r : Request) (ps : Params) :
    (∀ b : Basket,
      (getAndAuthBasket s w r ps).2.2 = (Params.ByName ps (go "basket"), some b) ↔
        (BasketDb.Get s.db (Params.ByName ps (go "basket")) = some b ∧
          Values.Get r.Header (go "Authorization") = b.Token)) ∧
    ((¬ ∃ b, BasketDb.Get s.db (Params.ByName ps (go "basket")) = some b ∧
          Values.Get r.Header (go "Authorization") = b.Token) →
      (getAndAuthBasket s w r ps).2.2 = ([], none)) ∧
    (BasketDb.Get s.db (Params.ByName ps (go "basket")) = none →
      (getAndAuthBasket s w r ps).2.1 = w ++ [.WriteHeader 404]) ∧
    (∀ b, BasketDb.Get s.db (Params.ByName ps (go "basket")) = some b →
      Values.Get r.Header (go "Authorization") ≠ b.Token →
      (getAndAuthBasket s w r ps).2.1 = w ++ [.WriteHeader 401]) ∧
    (∀ b, BasketDb.Get s.db (Params.ByName ps (go "basket")) = some b →
      Values.Get r.Header (go "Authorization") = b.Token →
      (getAndAuthBasket s w r ps).2.1 = w) ∧
    (getAndAuthBasket s w r ps).1.db = s.db := by
  rw [getAndAuthBasket_eq]
  cases hg : BasketDb.Get s.db (Params.ByName ps (go "basket")) with
  | none => simp [World.call]
  | some b0 =>
    by_cases ht : Values.Get r.Header (go "Authorization") = b0.Token
    · simp only [ht, if_true]
      refine ⟨?_, ?_, ?_, ?_, ?_, rfl⟩
      · intro b
        constructor
        · intro h
          have hb : b0 = b := by simpa using congrArg (fun p => p.2) h
          subst hb
          exact ⟨rfl, rfl⟩
        · rintro ⟨h1, _⟩
          have hb : b0 = b := by simpa using h1
          subst hb
          rfl
      · intro h
        exact absurd ⟨b0, rfl, rfl⟩ h
      · intro h; cases h
      · intro b hb hne
        have hb : b0 = b := by simpa using hb
        subst hb
        exact absurd rfl hne
      · intro _ _ _; trivial
    · simp only [ht, if_false]
      refine ⟨?_, ?_, ?_, ?_, ?_, rfl⟩
      · intro b
        constructor
        · intro h
          have : (none : Option Basket) = some b := congrArg (fun p => p.2) h
          cases this
        · rintro ⟨h1, h2⟩
          have hb : b0 = b := by simpa using h1
          subst hb
          exact absurd h2 ht
      · intro _; trivial
      · intro h; cases h
      · intro _ _ _; trivial
      · intro b hb heq
        have hb : b0 = b := by simpa using hb
        subst hb
        exact absurd heq ht

/-- C2. A request that names no basket, or whose `Authorization` header differs from the
token of the basket it names, leaves the registry and every log as they were in each of
`GetBasket`, `UpdateBasket`, `DeleteBasket`, `GetBasketRequests` and `ClearBasket`: the
only call made is the lookup `basketDb.Get` (no `Delete`, no `Clear`, no `ToJson`), and
the only thing written is the status, 404 without basket and 401 with one. -/
theorem token_gating (env : Env) (s : World) (w : ResponseWriter) (r : Request) (ps : Params)
    (h : ∀ b, BasketDb.Get s.db (Params.ByName ps (go "basket")) = some b →
      Values.Get r.Header (go "Authorization") ≠ b.Token) :
    ∀ out ∈ [GetBasket env s w r ps, UpdateBasket s w r ps, DeleteBasket s w r ps,
        GetBasketRequests env s w r ps, ClearBasket s w r ps],
      out.1.db = s.db ∧ out.1.tokens = s.tokens ∧
      out.1.calls = s.calls ++ [.dbGet (Params.ByName ps (go "basket"))] ∧
      out.2 = w ++ [.WriteHeader
        (if (BasketDb.Get s.db (Params.ByName ps (go "basket"))).isSome then 401 else 404)] := by
  have hd := getAndAuthBasket_denied s w r ps h
  intro out hout
  simp only [List.mem_cons, List.mem_singleton, List.not_mem_nil, or_false] at hout
  rcases hout with rfl | rfl | rfl | rfl | rfl <;>
    simp [GetBasket, UpdateBasket, DeleteBasket, GetBasketRequests, ClearBasket, hd, World.call]

/-- The theorem `token_gating` at a request for the basket `demo` with a strict prefix of
its token. -/
theorem token_gating_witness :
    (∀ b, BasketDb.Get world0.db (Params.ByName [(go "basket", go "demo")] (go "basket")) = some b →
      Values.Get (mkRequest "DELETE" "/baskets/demo" "secre" "").Header (go "Authorization")
        ≠ b.Token) ∧
    (DeleteBasket world0 [] (mkRequest "DELETE" "/baskets/demo" "secre" "")
        [(go "basket", go "demo")]).1.db = world0.db ∧
    (DeleteBasket world0 [] (mkRequest "DELETE" "/baskets/demo" "secre" "")
        [(go "basket", go "demo")]).2 = [.WriteHeader 401] :=
  have hyp : ∀ b, BasketDb.Get world0.db (Params.ByName [(go "basket", go "demo")] (go "basket"))
      = some b →
      Values.Get (mkRequest "DELETE" "/baskets/demo" "secre" "").Header (go "Authorization")
        ≠ b.Token := by
    intro b hb
    have hb2 : demoBasket = b := Option.some.inj ((by decide :
      BasketDb.Get world0.db (Params.ByName [(go "basket", go "demo")] (go "basket"))
        = some demoBasket).symm.trans hb)
    subst hb2
    decide
  have key := token_gating env0 world0 [] (mkRequest "DELETE" "/baskets/demo" "secre" "")
    [(go "basket", go "demo")] hyp _ (by simp : DeleteBasket world0 [] (mkRequest "DELETE" "/baskets/demo" "secre" "")
        [(go "basket", go "demo")] ∈ _)
  ⟨hyp, key.1, key.2.2.2⟩

/-- The calls made since `s`, when the later state lists them after those of `s`. -/
theorem World.newCalls_append (s t : World) (l : List Call) (h : t.calls = s.calls ++ l) :
    World.newCalls s t = l := by
  simp [World.newCalls, h]

/-- Lines 100 to 106 of `CreateBasket`, by the cases of the lookup in `basketDb.Create`. -/
theorem CreateBasket.create_eq (env : Env) (s : World) (w : ResponseWriter) (name : GoString)
    (config : Config) :
    CreateBasket.create env s w name config =
      match BasketDb.Get s.db name with
      | some _ =>
        ({ s with calls := s.calls ++ [.dbCreate name config] },
          w ++ [.Error "basket with such name already exists" 409])
      | none =>
        ({ db := s.db ++ [World.fresh env s name config], tokens := s.tokens + 1,
           calls := s.calls ++ [.dbCreate name config, .basketToAuthJson name] },
          writeJson w 201 (env.BasketToAuthJson (World.fresh env s name config)).1
            (env.BasketToAuthJson (World.fresh env s name config)).2) := by
  simp only [CreateBasket.create, World.Create, BasketDb.Create]
  cases BasketDb.Get s.db name <;>
    simp [World.call, World.BasketToAuthJson, World.fresh]

/-- The handler `CreateBasket` on a body read without error, by its five paths. -/
theorem CreateBasket_eq (env : Env) (s : World) (w : ResponseWriter) (r : Request) (ps : Params)
    (body : GoString) (hread : ReadAllLimit r.Body 2048 = (body, none)) :
    CreateBasket env s w r ps =
      if body = [] then
        CreateBasket.create env s w (Params.ByName ps (go "basket"))
          ⟨[], env.DEFAULT_BASKET_CAPACITY⟩
      else
        match json.Unmarshal env.intSize body ⟨[], env.DEFAULT_BASKET_CAPACITY⟩ with
        | .error err => (s.call (.jsonUnmarshal body), w ++ [.Error err 422])
        | .ok config =>
          if config.ForwardUrl = [] then
            CreateBasket.create env (s.call (.jsonUnmarshal body)) w
              (Params.ByName ps (go "basket")) config
          else
            match url.ParseRequestURI config.ForwardUrl with
            | some err =>
              ((s.call (.jsonUnmarshal body)).call (.urlParseRequestURI config.ForwardUrl),
                w ++ [.Error err 422])
            | none =>
              CreateBasket.create env
                ((s.call (.jsonUnmarshal body)).call (.urlParseRequestURI config.ForwardUrl)) w
                (Params.ByName ps (go "basket")) config := by
  simp only [CreateBasket, hread, World.Unmarshal, World.ParseRequestURI]
  cases body with
  | nil => simp
  | cons c cs =>
    simp only [List.length_cons, gt_iff_lt, Nat.zero_lt_succ, if_true, reduceCtorEq, if_false]
    cases json.Unmarshal env.intSize (c :: cs) ⟨[], env.DEFAULT_BASKET_CAPACITY⟩ with
    | error e => rfl
    | ok config =>
      simp only
      cases hf : config.ForwardUrl with
      | nil => simp
      | cons d ds =>
        simp only [List.length_cons, gt_iff_lt, Nat.zero_lt_succ, if_true, reduceCtorEq, if_false]
        cases url.ParseRequestURI (d :: ds) <;> rfl

/-- Lines 100 to 106 of `CreateBasket` in a state `t` that has the registry and the token
count of `s` and no call of `basketDb.Create` since `s`: the one call of `basketDb.Create`
is that with the name and the configuration given, the answer is 409 when it returns an
error, and otherwise the basket is stored and the answer is what `writeJson` makes of the
output of `ToAuthJson`: 201 with the JSON text, or 500 with its error. -/
theorem CreateBasket.create_outcome (env : Env) (s t : World) (w : ResponseWriter)
    (name : GoString) (config : Config) (pre : List Call)
    (hdb : t.db = s.db) (htok : t.tokens = s.tokens) (hcalls : t.calls = s.calls ++ pre)
    (hpre : pre.filter Call.isCreate = []) :
    (World.newCalls s (CreateBasket.create env t w name config).1).filter Call.isCreate
      = [.dbCreate name config] ∧
    match BasketDb.Create s.db name config (env.GenerateToken s.tokens) with
    | (.error e, _) =>
      (CreateBasket.create env t w name config).2 = w ++ [.Error e 409] ∧
      (CreateBasket.create env t w name config).1.db = s.db
    | (.ok basket, db) =>
      (CreateBasket.create env t w name config).1.db = db ∧
      match env.BasketToAuthJson basket with
      | (json, none) =>
        (CreateBasket.create env t w name config).2 =
          w ++ [.SetHeader (go "Content-Type") (go "application/json; charset=UTF-8"),
            .WriteHeader 201, .Write json]
      | (_, some e) => (CreateBasket.create env t w name config).2 = w ++ [.Error e 500] := by
  rw [CreateBasket.create_eq]
  simp only [BasketDb.Create, hdb, htok]
  cases hg : BasketDb.Get s.db name with
  | some b0 =>
    simp only
    refine ⟨?_, trivial, trivial⟩
    rw [World.newCalls_append s _ (pre ++ [.dbCreate name config]) (by simp [hcalls])]
    simp [List.filter_append, hpre, Call.isCreate]
  | none =>
    simp only
    have hfresh : World.fresh env t name config =
        { Name := name, Token := env.GenerateToken s.tokens, Config := config,
          Requests := { Capacity := config.Capacity, Count := 0, records := [] } } := by
      simp [World.fresh, htok]
    rw [hfresh]
    refine ⟨?_, rfl, ?_⟩
    · rw [World.newCalls_append s _ (pre ++ [.dbCreate name config, .basketToAuthJson name])
        (by simp [hcalls])]
      simp [List.filter_append, hpre, Call.isCreate]
    · cases hj : env.BasketToAuthJson
          { Name := name, Token := env.GenerateToken s.tokens, Config := config,
            Requests := { Capacity := config.Capacity, Count := 0, records := [] } } with
      | mk json err =>
        cases err with
        | none => simp [writeJson]
        | some e => simp [writeJson]

/-- C3 (as amended). `CreateBasket` on a body read without error.  When the body is
non-empty and either is not decoded by `json.Unmarshal` or decodes to a non-empty
`ForwardUrl` that `url.ParseRequestURI` refuses, the handler answers 422 and never calls
`basketDb.Create` (the registry stays as it was).  In every other case it calls
`basketDb.Create(name, config)` exactly once, `config` being the default configuration
for an empty body and the decoded configuration otherwise; it answers 409 when that call
returns an error (the registry stays as it was); when the call succeeds the registry is
the one with the new basket, and the answer is 201 with the output of `ToAuthJson` as
the body when `ToAuthJson` returns no error, and 500 when `ToAuthJson` returns an
error. -/
theorem CreateBasket_outcome (env : Env) (s : World) (w : ResponseWriter) (r : Request)
    (ps : Params) (body : GoString) (hread : ReadAllLimit r.Body 2048 = (body, none)) :
    (body ≠ [] →
      ((∀ c, json.Unmarshal env.intSize body ⟨[], env.DEFAULT_BASKET_CAPACITY⟩ ≠ .ok c) ∨
        (∃ c, json.Unmarshal env.intSize body ⟨[], env.DEFAULT_BASKET_CAPACITY⟩ = .ok c ∧
          c.ForwardUrl ≠ [] ∧ url.ParseRequestURI c.ForwardUrl ≠ none)) →
      (∃ e, (CreateBasket env s w r ps).2 = w ++ [.Error e 422]) ∧
      (World.newCalls s (CreateBasket env s w r ps).1).filter Call.isCreate = [] ∧
      (CreateBasket env s w r ps).1.db = s.db) ∧
    (¬ (body ≠ [] ∧
      ((∀ c, json.Unmarshal env.intSize body ⟨[], env.DEFAULT_BASKET_CAPACITY⟩ ≠ .ok c) ∨
        (∃ c, json.Unmarshal env.intSize body ⟨[], env.DEFAULT_BASKET_CAPACITY⟩ = .ok c ∧
          c.ForwardUrl ≠ [] ∧ url.ParseRequestURI c.ForwardUrl ≠ none))) →
      ∃ config,
        (body = [] → config = ⟨[], env.DEFAULT_BASKET_CAPACITY⟩) ∧
        (body ≠ [] →
          json.Unmarshal env.intSize body ⟨[], env.DEFAULT_BASKET_CAPACITY⟩ = .ok config) ∧
        (World.newCalls s (CreateBasket env s w r ps).1).filter Call.isCreate =
          [.dbCreate (Params.ByName ps (go "basket")) config] ∧
        match BasketDb.Create s.db (Params.ByName ps (go "basket")) config
            (env.GenerateToken s.tokens) with
        | (.error e, _) =>
          (CreateBasket env s w r ps).2 = w ++ [.Error e 409] ∧
          (CreateBasket env s w r ps).1.db = s.db
        | (.ok basket, db) =>
          (CreateBasket env s w r ps).1.db = db ∧
          match env.BasketToAuthJson basket with
          | (json, none) =>
            (CreateBasket env s w r ps).2 =
              w ++ [.SetHeader (go "Content-Type") (go "application/json; charset=UTF-8"),
                .WriteHeader 201, .Write json]
          | (_, some e) => (CreateBasket env s w r ps).2 = w ++ [.Error e 500]) := by
  rw [CreateBasket_eq env s w r ps body hread]
  by_cases hb : body = []
  · simp only [hb, if_true, ne_eq, not_true_eq_false, false_and, not_false_eq_true,
      forall_true_left, false_implies, true_and]
    exact ⟨_, rfl, CreateBasket.create_outcome env s s w _ _ [] rfl rfl (by simp) rfl⟩
  · simp only [hb, if_false, ne_eq, not_false_eq_true, true_and, forall_true_left]
    cases hu : json.Unmarshal env.intSize body ⟨[], env.DEFAULT_BASKET_CAPACITY⟩ with
    | error e =>
      simp only
      constructor
      · intro _
        refine ⟨⟨e, rfl⟩, ?_, rfl⟩
        rw [World.newCalls_append s _ [.jsonUnmarshal body] (by simp [World.call])]
        simp [Call.isCreate]
      · intro h
        exact absurd (Or.inl (fun c hc => by cases hc)) h
    | ok config =>
      by_cases hf : config.ForwardUrl = []
      · simp only [hf, if_true]
        constructor
        · rintro (h | ⟨c, hc, hne, _⟩)
          · exact absurd rfl (h config)
          · cases hc; exact absurd hf hne
        · intro _
          exact ⟨config, fun h => absurd h (by simp), rfl,
            CreateBasket.create_outcome env s (s.call (.jsonUnmarshal body)) w _ _
              [.jsonUnmarshal body] rfl rfl (by simp [World.call]) (by simp [Call.isCreate])⟩
      · simp only [hf, if_false]
        cases hp : url.ParseRequestURI config.ForwardUrl with
        | some err =>
          simp only
          constructor
          · intro _
            refine ⟨⟨err, rfl⟩, ?_, rfl⟩
            rw [World.newCalls_append s _ [.jsonUnmarshal body,
              .urlParseRequestURI config.ForwardUrl] (by simp [World.call])]
            simp [Call.isCreate]
          · intro h
            exact absurd (Or.inr ⟨config, rfl, hf, by simp [hp]⟩) h
        | none =>
          simp only
          constructor
          · rintro (h | ⟨c, hc, _, hne⟩)
            · exact absurd rfl (h config)
            · cases hc; exact absurd hp hne
          · intro _
            exact ⟨config, fun h => absurd h (by simp), rfl,
              CreateBasket.create_outcome env s
                ((s.call (.jsonUnmarshal body)).call (.urlParseRequestURI config.ForwardUrl)) w
                _ _ [.jsonUnmarshal body, .urlParseRequestURI config.ForwardUrl] rfl rfl
                (by simp [World.call]) (by simp [Call.isCreate])⟩

/-- The theorem `CreateBasket_outcome` at a body that is no JSON text: the answer is 422. -/
theorem CreateBasket_outcome_witness :
    ReadAllLimit (mkRequest "POST" "/baskets/x" "" "\x7b").Body 2048 = (go "\x7b", none) ∧
    (∃ e, (CreateBasket env0 world0 [] (mkRequest "POST" "/baskets/x" "" "\x7b")
      [(go "basket", go "x")]).2 = [] ++ [.Error e 422]) :=
  ⟨by decide,
    ((CreateBasket_outcome env0 world0 [] (mkRequest "POST" "/baskets/x" "" "\x7b")
      [(go "basket", go "x")] (go "\x7b") (by decide)).1 (by decide)
      (Or.inl (fun c hc => by
        have h : json.Unmarshal env0.intSize (go "\x7b") ⟨[], env0.DEFAULT_BASKET_CAPACITY⟩
            = .error "invalid character or unexpected end of JSON input" := by decide
        rw [h] at hc
        cases hc))).1⟩

/-- C3 (counterexample). With a `ToAuthJson` that returns an error, a request with an empty
body for the free name `x` makes `basketDb.Create` succeed (the registry holds `x`
afterwards) and the answer is 500, not 201. -/
theorem CreateBasket_answers_500_when_ToAuthJson_fails :
    CreateBasket envMarshalError world0 [] (mkRequest "POST" "/baskets/x" "" "")
        [(go "basket", go "x")] =
      ({ db := [demoBasket,
            { Name := go "x", Token := go "t0", Config := ⟨[], 200⟩,
              Requests := ⟨200, 0, []⟩ }],
         tokens := 2,
         calls := [.dbCreate (go "x") ⟨[], 200⟩, .basketToAuthJson (go "x")] },
        [.Error "json: error calling MarshalJSON" 500]) ∧
    ResponseWriter.status (CreateBasket envMarshalError world0 []
      (mkRequest "POST" "/baskets/x" "" "") [(go "basket", go "x")]).2 = some 500 := by
  decide

/-- A scheme that `getScheme` returns is empty only when nothing was split off. -/
theorem url.getSchemeLoop_noScheme (rawURL : GoString) (hraw : rawURL ≠ []) :
    ∀ (s : GoString) (i : Nat) (rest : GoString),
      url.getSchemeLoop rawURL s i = .ok ([], rest) → rest = rawURL := by
  intro s
  induction s with
  | nil =>
    intro i rest h
    simp only [url.getSchemeLoop] at h
    cases h
    rfl
  | cons c cs ih =>
    intro i rest h
    simp only [url.getSchemeLoop] at h
    split at h
    · exact ih _ _ h
    · split at h
      · split at h
        · cases h; rfl
        · exact ih _ _ h
      · split at h
        · split at h
          · cases h
          · rename_i hi
            have htake : rawURL.take i = [] := by
              have := congrArg (fun r => match r with
                | Except.ok p => p.1
                | Except.error _ => ([] : GoString)) h
              simpa using this
            rcases List.take_eq_nil_iff.mp htake with h0 | h0
            · exact absurd h0 hi
            · exact absurd h0 hraw
        · cases h; rfl

/-- The function `getScheme` returns an error only on a text that begins with a colon. -/
theorem url.getSchemeLoop_error (rawURL : GoString) :
    ∀ (s : GoString) (i : Nat) (e : GoError),
      url.getSchemeLoop rawURL s i = .error e → i = 0 ∧ ∃ cs, s = 0x3A :: cs := by
  intro s
  induction s with
  | nil =>
    intro i e h
    simp only [url.getSchemeLoop] at h
    cases h
  | cons c cs ih =>
    intro i e h
    simp only [url.getSchemeLoop] at h
    split at h
    · exact absurd (ih _ _ h).1 (Nat.succ_ne_zero i)
    · split at h
      · split at h
        · cases h
        · exact absurd (ih _ _ h).1 (Nat.succ_ne_zero i)
      · split at h
        · rename_i hc
          split at h
          · rename_i hi
            exact ⟨hi, cs, by rw [hc]⟩
          · cases h
        · cases h

/-- Cutting the query off does not change whether a text begins with a slash. -/
theorem strings.HasPrefix_beforeQuery (u : GoString) :
    strings.HasPrefix (url.beforeQuery u) (go "/") = strings.HasPrefix u (go "/") := by
  have hgo : go "/" = [0x2F] := by decide
  rw [hgo]
  unfold url.beforeQuery
  cases hq : strings.Index [0x3F] u with
  | none => rfl
  | some q =>
    simp only
    cases u with
    | nil => cases q <;> simp [strings.HasPrefix]
    | cons c cs =>
      cases q with
      | zero =>
        have hc : c = 0x3F := by
          simp only [strings.Index] at hq
          split at hq
          · rename_i hp
            exact (by simpa [List.isPrefixOf] using hp : (0x3F : UInt8) = c).symm
          · cases hi : strings.Index [0x3F] cs <;> rw [hi] at hq <;> simp at hq
        subst hc
        simp [strings.HasPrefix, List.isPrefixOf]
      | succ n => simp [strings.HasPrefix, List.isPrefixOf]

/-- A non-empty text without a scheme is refused by `url.ParseRequestURI` exactly when it is
neither `*` nor an absolute path. -/
theorem url.ParseRequestURI_noScheme (u : GoString) (hne : u ≠ [])
    (hs : hasScheme u = false) :
    url.ParseRequestURI u ≠ none ↔ ¬ (u = go "*" ∨ isAbsolutePath u = true) := by
  have hemp : u.isEmpty = false := by
    cases u with
    | nil => exact absurd rfl hne
    | cons c cs => rfl
  have hstarCTL : url.stringContainsCTLByte (go "*") = false := by decide
  have hstarSlash : strings.HasPrefix (go "*") (go "/") = false := by decide
  unfold url.ParseRequestURI isAbsolutePath
  by_cases hc : url.stringContainsCTLByte u = true
  · have hns : u ≠ go "*" := by
      intro h
      rw [h, hstarCTL] at hc
      cases hc
    simp [hc, hns]
  · have hc2 : url.stringContainsCTLByte u = false := by simpa using hc
    by_cases hstar : u = go "*"
    · have hne2 : ¬ go "*" = [] := by decide
      simp [hc2, hemp, hstar, hstarCTL, hne2]
    · simp only [hc2, hemp, hstar, if_false, Bool.false_eq_true, false_or, Bool.not_false,
        Bool.and_true]
      unfold hasScheme at hs
      cases hg : url.getScheme u with
      | error e =>
        obtain ⟨_, cs, hcs⟩ := url.getSchemeLoop_error u u 0 e hg
        subst hcs
        have hsl : strings.HasPrefix (0x3A :: cs) (go "/") = false := by
          have hgo : go "/" = [0x2F] := by decide
          rw [hgo]
          simp [strings.HasPrefix, List.isPrefixOf]
        simp [hsl]
      | ok p =>
        obtain ⟨scheme, rest0⟩ := p
        rw [hg] at hs
        have hsch : scheme = [] := by
          cases scheme with
          | nil => rfl
          | cons a as => simp at hs
        subst hsch
        have hrest : rest0 = u := url.getSchemeLoop_noScheme u hne u 0 rest0 hg
        subst hrest
        simp only [strings.HasPrefix_beforeQuery, List.isEmpty_nil, Bool.not_true,
          Bool.false_eq_true, if_false, Bool.false_and]
        cases hp : strings.HasPrefix rest0 (go "/") <;>
          cases hu : url.unescapeOk .encodePath (url.beforeQuery rest0) <;> simp

/-- C4 (as amended). `CreateBasket` on a body it decodes to a configuration with a
non-empty `ForwardUrl`.  The handler answers 422 without calling `basketDb.Create` (the
registry stays as it was) when `url.ParseRequestURI` refuses the value, and calls
`basketDb.Create` once, with the name of the route and the decoded configuration, when
`url.ParseRequestURI` takes it.  A value that is no absolute URL (it has no scheme) is
refused exactly when it is neither `*` nor an absolute path: a text that begins with a
slash, holds no control byte and has two hexadecimal digits after every `%` before its
first question mark. -/
theorem CreateBasket_forwardUrl_validation (env : Env) (s : World) (w : ResponseWriter)
    (r : Request) (ps : Params) (body : GoString) (config : Config)
    (hread : ReadAllLimit r.Body 2048 = (body, none)) (hbody : body ≠ [])
    (hdec : json.Unmarshal env.intSize body ⟨[], env.DEFAULT_BASKET_CAPACITY⟩ = .ok config)
    (hne : config.ForwardUrl ≠ []) :
    (url.ParseRequestURI config.ForwardUrl ≠ none →
      (∃ e, (CreateBasket env s w r ps).2 = w ++ [.Error e 422]) ∧
      (World.newCalls s (CreateBasket env s w r ps).1).filter Call.isCreate = [] ∧
      (CreateBasket env s w r ps).1.db = s.db) ∧
    (url.ParseRequestURI config.ForwardUrl = none →
      (World.newCalls s (CreateBasket env s w r ps).1).filter Call.isCreate =
        [.dbCreate (Params.ByName ps (go "basket")) config]) ∧
    (hasScheme config.ForwardUrl = false →
      (url.ParseRequestURI config.ForwardUrl ≠ none ↔
        ¬ (config.ForwardUrl = go "*" ∨ isAbsolutePath config.ForwardUrl = true))) := by
  refine ⟨?_, ?_, fun hs => url.ParseRequestURI_noScheme config.ForwardUrl hne hs⟩
  · intro hp
    rw [CreateBasket_eq env s w r ps body hread]
    simp only [hbody, if_false, hdec, hne]
    cases hq : url.ParseRequestURI config.ForwardUrl with
    | none => exact absurd hq hp
    | some err =>
      refine ⟨⟨err, rfl⟩, ?_, rfl⟩
      rw [World.newCalls_append s _ [.jsonUnmarshal body, .urlParseRequestURI config.ForwardUrl]
        (by simp [World.call])]
      simp [Call.isCreate]
  · intro hp
    rw [CreateBasket_eq env s w r ps body hread]
    simp only [hbody, if_false, hdec, hne, hp]
    exact (CreateBasket.create_outcome env s
      ((s.call (.jsonUnmarshal body)).call (.urlParseRequestURI config.ForwardUrl)) w
      _ _ [.jsonUnmarshal body, .urlParseRequestURI config.ForwardUrl] rfl rfl
      (by simp [World.call]) (by simp [Call.isCreate])).1

/-- The theorem `CreateBasket_forwardUrl_validation` at the body `{"forwardUrl":"hook"}`:
the value has no scheme and is no absolute path, and the registry stays as it was. -/
theorem CreateBasket_forwardUrl_validation_witness :
    ReadAllLimit (mkRequest "POST" "/baskets/x" "" "\x7b\"forwardUrl\":\"hook\"\x7d").Body 2048
      = (go "\x7b\"forwardUrl\":\"hook\"\x7d", none) ∧
    hasScheme (go "hook") = false ∧ isAbsolutePath (go "hook") = false ∧
    (CreateBasket env0 world0 [] (mkRequest "POST" "/baskets/x" "" "\x7b\"forwardUrl\":\"hook\"\x7d")
      [(go "basket", go "x")]).1.db = world0.db :=
  ⟨by decide, by decide, by decide,
    ((CreateBasket_forwardUrl_validation env0 world0 []
      (mkRequest "POST" "/baskets/x" "" "\x7b\"forwardUrl\":\"hook\"\x7d")
      [(go "basket", go "x")] (go "\x7b\"forwardUrl\":\"hook\"\x7d") ⟨go "hook", 200⟩
      (by decide) (by decide) (by decide) (by decide)).1 (by decide)).2.2⟩

/-- C4 (counterexample). The body `{"forwardUrl":"/hook"}` carries a forward URL that has no
scheme, hence is no absolute URL; `CreateBasket` answers 201 and the registry holds the new
basket `x` with that forward URL. -/
theorem CreateBasket_accepts_path_only_forwardUrl :
    url.getScheme (go "/hook") = .ok ([], go "/hook") ∧
    CreateBasket env0 world0 [] (mkRequest "POST" "/baskets/x" "" "\x7b\"forwardUrl\":\"/hook\"\x7d")
        [(go "basket", go "x")] =
      ({ db := [demoBasket,
            { Name := go "x", Token := go "t0", Config := ⟨go "/hook", 200⟩,
              Requests := ⟨200, 0, []⟩ }],
         tokens := 2,
         calls := [.jsonUnmarshal (go "\x7b\"forwardUrl\":\"/hook\"\x7d"),
           .urlParseRequestURI (go "/hook"),
           .dbCreate (go "x") ⟨go "/hook", 200⟩, .basketToAuthJson (go "x")] },
        [.SetHeader (go "Content-Type") (go "application/json; charset=UTF-8"),
          .WriteHeader 201, .Write (go "t0")]) := by
  decide

/-- The calls `CreateBasket.create` makes: the call of `basketDb.Create` with the name and
the configuration it was given, and the call of `ToAuthJson` after it if a basket was
created. -/
theorem CreateBasket.create_calls (env : Env) (s t : World) (w : ResponseWriter)
    (name : GoString) (config : Config) (pre : List Call) (hcalls : t.calls = s.calls ++ pre) :
    ∃ tail, World.newCalls s (CreateBasket.create env t w name config).1 =
        pre ++ .dbCreate name config :: tail ∧
      ∀ c ∈ tail, c = .basketToAuthJson name := by
  rw [CreateBasket.create_eq]
  cases BasketDb.Get t.db name with
  | some b =>
    refine ⟨[], ?_, by simp⟩
    exact World.newCalls_append s _ _ (by simp [hcalls])
  | none =>
    refine ⟨[.basketToAuthJson name], ?_, by simp⟩
    exact World.newCalls_append s _ _ (by simp [hcalls])

/-- The calls `CreateBasket` makes on a body read without error: a call of
`basketDb.Create` among them has the name of the route, and the default configuration
for an empty body, the configuration `json.Unmarshal` returns otherwise. -/
theorem CreateBasket_create_call (env : Env) (s : World) (w : ResponseWriter) (r : Request)
    (ps : Params) (body : GoString) (hread : ReadAllLimit r.Body 2048 = (body, none))
    (name : GoString) (config : Config)
    (hcall : .dbCreate name config ∈ World.newCalls s (CreateBasket env s w r ps).1) :
    name = Params.ByName ps (go "basket") ∧
    (body = [] → config = ⟨[], env.DEFAULT_BASKET_CAPACITY⟩) ∧
    (body ≠ [] →
      json.Unmarshal env.intSize body ⟨[], env.DEFAULT_BASKET_CAPACITY⟩ = .ok config) := by
  rw [CreateBasket_eq env s w r ps body hread] at hcall
  by_cases hb : body = []
  · simp only [hb, if_true] at hcall
    obtain ⟨tail, htail, hall⟩ := CreateBasket.create_calls env s s w
      (Params.ByName ps (go "basket")) ⟨[], env.DEFAULT_BASKET_CAPACITY⟩ [] (by simp)
    rw [htail] at hcall
    simp only [List.nil_append, List.mem_cons] at hcall
    rcases hcall with h | h
    · injection h with h1 h2
      exact ⟨h1, fun _ => h2, fun h => absurd hb h⟩
    · have := hall _ h
      cases this
  · simp only [hb, if_false] at hcall
    cases hu : json.Unmarshal env.intSize body ⟨[], env.DEFAULT_BASKET_CAPACITY⟩ with
    | error e =>
      rw [hu] at hcall
      simp only at hcall
      rw [World.newCalls_append s _ [.jsonUnmarshal body] (by simp [World.call])] at hcall
      simp at hcall
    | ok cfg =>
      rw [hu] at hcall
      simp only at hcall
      by_cases hf : cfg.ForwardUrl = []
      · simp only [hf, if_true] at hcall
        obtain ⟨tail, htail, hall⟩ := CreateBasket.create_calls env s
          (s.call (.jsonUnmarshal body)) w
          (Params.ByName ps (go "basket")) cfg [.jsonUnmarshal body] (by simp [World.call])
        rw [htail] at hcall
        simp only [List.singleton_append, List.mem_cons, reduceCtorEq, false_or] at hcall
        rcases hcall with h | h
        · injection h with h1 h2
          exact ⟨h1, fun h => absurd h hb, fun _ => by rw [h2]⟩
        · have := hall _ h
          cases this
      · simp only [hf, if_false] at hcall
        cases hp : url.ParseRequestURI cfg.ForwardUrl with
        | some err =>
          rw [hp] at hcall
          simp only at hcall
          rw [World.newCalls_append s _ [.jsonUnmarshal body, .urlParseRequestURI cfg.ForwardUrl]
            (by simp [World.call])] at hcall
          simp at hcall
        | none =>
          rw [hp] at hcall
          simp only at hcall
          obtain ⟨tail, htail, hall⟩ := CreateBasket.create_calls env s
            ((s.call (.jsonUnmarshal body)).call (.urlParseRequestURI cfg.ForwardUrl)) w
            (Params.ByName ps (go "basket")) cfg
            [.jsonUnmarshal body, .urlParseRequestURI cfg.ForwardUrl] (by simp [World.call])
          rw [htail] at hcall
          simp only [List.cons_append, List.nil_append, List.mem_cons, reduceCtorEq,
            false_or] at hcall
          rcases hcall with h | h
          · injection h with h1 h2
            exact ⟨h1, fun h => absurd h hb, fun _ => by rw [h2]⟩
          · have := hall _ h
            cases this

/-- C5 (as amended). With a positive `DEFAULT_BASKET_CAPACITY`, the capacity of a
configuration that `CreateBasket` hands to `basketDb.Create` is the default for an empty
body and otherwise the capacity `json.Unmarshal` left in the configuration; it is
positive exactly when the body is empty or the decoded capacity is positive (the handler
does not check it). -/
theorem CreateBasket_capacity (env : Env) (s : World) (w : ResponseWriter) (r : Request)
    (ps : Params) (body : GoString) (hpos : 0 < env.DEFAULT_BASKET_CAPACITY)
    (hread : ReadAllLimit r.Body 2048 = (body, none)) (name : GoString) (config : Config)
    (hcall : .dbCreate name config ∈ World.newCalls s (CreateBasket env s w r ps).1) :
    (body = [] → config.Capacity = env.DEFAULT_BASKET_CAPACITY) ∧
    (body ≠ [] →
      json.Unmarshal env.intSize body ⟨[], env.DEFAULT_BASKET_CAPACITY⟩ = .ok config) ∧
    (0 < config.Capacity ↔
      (body = [] ∨ ∃ c, json.Unmarshal env.intSize body ⟨[], env.DEFAULT_BASKET_CAPACITY⟩ = .ok c
        ∧ 0 < c.Capacity)) := by
  obtain ⟨_, h1, h2⟩ := CreateBasket_create_call env s w r ps body hread name config hcall
  refine ⟨fun hb => by rw [h1 hb], h2, ?_⟩
  by_cases hb : body = []
  · simp [hb, h1 hb, hpos]
  · constructor
    · intro h
      exact Or.inr ⟨config, h2 hb, h⟩
    · rintro (h | ⟨c, hc, hc0⟩)
      · exact absurd h hb
      · rw [h2 hb] at hc
        cases hc
        exact hc0

/-- The theorem `CreateBasket_capacity` at the body `{"capacity":7}`. -/
theorem CreateBasket_capacity_witness :
    0 < (⟨[], 7⟩ : Config).Capacity ↔
      (go "\x7b\"capacity\":7\x7d" = [] ∨ ∃ c, json.Unmarshal env0.intSize
        (go "\x7b\"capacity\":7\x7d") ⟨[], env0.DEFAULT_BASKET_CAPACITY⟩ = .ok c ∧ 0 < c.Capacity) :=
  (CreateBasket_capacity env0 world0 [] (mkRequest "POST" "/baskets/x" "" "\x7b\"capacity\":7\x7d")
    [(go "basket", go "x")] (go "\x7b\"capacity\":7\x7d") (by decide) (by decide) (go "x")
    ⟨[], 7⟩ (by decide)).2.2

/-- C5 (counterexample). With the default capacity 200, the bodies `{"capacity":0}` and
`{"capacity":-3}` make `CreateBasket` call `basketDb.Create` with the capacities 0
and -3, neither of them positive. -/
theorem CreateBasket_passes_nonpositive_capacity :
    0 < env0.DEFAULT_BASKET_CAPACITY ∧
    World.newCalls world0 (CreateBasket env0 world0 []
        (mkRequest "POST" "/baskets/x" "" "\x7b\"capacity\":0\x7d") [(go "basket", go "x")]).1 =
      [.jsonUnmarshal (go "\x7b\"capacity\":0\x7d"), .dbCreate (go "x") ⟨[], 0⟩,
        .basketToAuthJson (go "x")] ∧
    World.newCalls world0 (CreateBasket env0 world0 []
        (mkRequest "POST" "/baskets/x" "" "\x7b\"capacity\":-3\x7d") [(go "basket", go "x")]).1 =
      [.jsonUnmarshal (go "\x7b\"capacity\":-3\x7d"), .dbCreate (go "x") ⟨[], -3⟩,
        .basketToAuthJson (go "x")] ∧
    ¬ (0 < (⟨[], 0⟩ : Config).Capacity) ∧ ¬ (0 < (⟨[], -3⟩ : Config).Capacity) := by
  decide

/-- Members whose keys do not match the capacity field leave the capacity as it is. -/
theorem json.setFields_capacity (intSize : Nat) :
    ∀ (members : List (GoString × Json)) (config result : Config),
      json.setFields intSize members config = .ok result →
      (∀ kv ∈ members, json.foldName kv.1 ≠ json.foldName Config.capacityKey) →
      result.Capacity = config.Capacity := by
  intro members
  induction members with
  | nil =>
    intro config result h _
    simp only [json.setFields] at h
    cases h
    rfl
  | cons kv rest ih =>
    intro config result h hk
    obtain ⟨key, v⟩ := kv
    simp only [json.setFields] at h
    have hkey : json.foldName key ≠ json.foldName Config.capacityKey :=
      hk (key, v) (List.mem_cons_self _ _)
    cases hs : json.setField intSize config key v with
    | error e => rw [hs] at h; cases h
    | ok c1 =>
      rw [hs] at h
      have h1 : c1.Capacity = config.Capacity := by
        unfold json.setField at hs
        split at hs
        · cases v <;> first | (cases hs; rfl) | cases hs
        · cases hs
          rfl
      rw [← h1]
      exact ih c1 result h (fun kv hkv => hk kv (List.mem_cons_of_mem _ hkv))

/-- Members whose keys do not match the forward URL field leave the forward URL as it
is. -/
theorem json.setFields_forwardUrl (intSize : Nat) :
    ∀ (members : List (GoString × Json)) (config result : Config),
      json.setFields intSize members config = .ok result →
      (∀ kv ∈ members, json.foldName kv.1 ≠ json.foldName Config.forwardUrlKey) →
      result.ForwardUrl = config.ForwardUrl := by
  intro members
  induction members with
  | nil =>
    intro config result h _
    simp only [json.setFields] at h
    cases h
    rfl
  | cons kv rest ih =>
    intro config result h hk
    obtain ⟨key, v⟩ := kv
    simp only [json.setFields] at h
    have hkey : json.foldName key ≠ json.foldName Config.forwardUrlKey :=
      hk (key, v) (List.mem_cons_self _ _)
    cases hs : json.setField intSize config key v with
    | error e => rw [hs] at h; cases h
    | ok c1 =>
      rw [hs] at h
      have h1 : c1.ForwardUrl = config.ForwardUrl := by
        unfold json.setField at hs
        simp only [hkey, if_false] at hs
        split at hs
        · cases v with
          | number lit =>
            simp only at hs
            split at hs
            · split at hs
              · cases hs; rfl
              · cases hs
            · cases hs
          | null => cases hs; rfl
          | bool b => cases hs
          | string s => cases hs
          | array a => cases hs
          | object o => cases hs
        · cases hs
          rfl
      rw [← h1]
      exact ih c1 result h (fun kv hkv => hk kv (List.mem_cons_of_mem _ hkv))

/-- C8. `CreateBasket` on a body read without error.  With a body of length 0 the calls it
makes are `basketDb.Create(name, Config{ForwardUrl: "", Capacity:
DEFAULT_BASKET_CAPACITY})` and, if the basket was created, `ToAuthJson`: neither
`json.Unmarshal` nor `url.ParseRequestURI` is called.  With a non-empty body that is the
JSON text `null` or an object, a configuration handed to `basketDb.Create` has the
default capacity when no key of the object matches the capacity field, and the empty
forward URL when no key matches the forward URL field. -/
theorem CreateBasket_default_config (env : Env) (s : World) (w : ResponseWriter) (r : Request)
    (ps : Params) (body : GoString) (hread : ReadAllLimit r.Body 2048 = (body, none)) :
    (body.length = 0 →
      ∃ tail, World.newCalls s (CreateBasket env s w r ps).1 =
          .dbCreate (Params.ByName ps (go "basket")) ⟨[], env.DEFAULT_BASKET_CAPACITY⟩ :: tail ∧
        ∀ c ∈ tail, c = .basketToAuthJson (Params.ByName ps (go "basket"))) ∧
    (∀ name config, body ≠ [] →
      .dbCreate name config ∈ World.newCalls s (CreateBasket env s w r ps).1 →
      (json.parse body = some .null → config = ⟨[], env.DEFAULT_BASKET_CAPACITY⟩) ∧
      (∀ members, json.parse body = some (.object members) →
        ((∀ kv ∈ members, json.foldName kv.1 ≠ json.foldName Config.capacityKey) →
          config.Capacity = env.DEFAULT_BASKET_CAPACITY) ∧
        ((∀ kv ∈ members, json.foldName kv.1 ≠ json.foldName Config.forwardUrlKey) →
          config.ForwardUrl = []))) := by
  constructor
  · intro hlen
    have hb : body = [] := List.length_eq_zero.mp hlen
    rw [CreateBasket_eq env s w r ps body hread]
    simp only [hb, if_true]
    obtain ⟨tail, htail, hall⟩ := CreateBasket.create_calls env s s w
      (Params.ByName ps (go "basket")) ⟨[], env.DEFAULT_BASKET_CAPACITY⟩ [] (by simp)
    exact ⟨tail, by simpa using htail, hall⟩
  · intro name config hb hcall
    obtain ⟨_, _, h2⟩ := CreateBasket_create_call env s w r ps body hread name config hcall
    have hu := h2 hb
    unfold json.Unmarshal at hu
    constructor
    · intro hp
      rw [hp] at hu
      cases hu
      rfl
    · intro members hp
      rw [hp] at hu
      simp only at hu
      exact ⟨fun hk => json.setFields_capacity env.intSize members _ config hu hk,
        fun hk => json.setFields_forwardUrl env.intSize members _ config hu hk⟩

/-- The theorem `CreateBasket_default_config` at the body `{"forwardUrl":"http://h/"}`,
which omits the capacity: the basket is created with the default capacity. -/
theorem CreateBasket_default_config_witness :
    ReadAllLimit (mkRequest "POST" "/baskets/x" "" "\x7b\"forwardUrl\":\"http://h/\"\x7d").Body 2048
      = (go "\x7b\"forwardUrl\":\"http://h/\"\x7d", none) ∧
    (⟨go "http://h/", 200⟩ : Config).Capacity = env0.DEFAULT_BASKET_CAPACITY :=
  ⟨by decide,
    (((CreateBasket_default_config env0 world0 []
      (mkRequest "POST" "/baskets/x" "" "\x7b\"forwardUrl\":\"http://h/\"\x7d")
      [(go "basket", go "x")] (go "\x7b\"forwardUrl\":\"http://h/\"\x7d") (by decide)).2
      (go "x") ⟨go "http://h/", 200⟩ (by decide) (by decide)).2
      [(go "forwardUrl", .string (go "http://h/"))] rfl).1 (by decide)⟩

/-- C9 (the code at the failing input). The basket `demo` has the capacity 200; a request
with its token and the body `{"capacity":5}`, which decodes to a configuration with
the capacity 5, makes `UpdateBasket` answer 204 after the lookup alone: the registry,
and with it the configuration of `demo`, is as before. -/
theorem UpdateBasket_keeps_old_config :
    json.Unmarshal env0.intSize (go "\x7b\"capacity\":5\x7d") demoBasket.Config = .ok ⟨[], 5⟩ ∧
    UpdateBasket world0 [] (mkRequest "PUT" "/baskets/demo" "secret" "\x7b\"capacity\":5\x7d")
        [(go "basket", go "demo")] =
      ({ world0 with calls := [.dbGet (go "demo")] }, [.WriteHeader 204]) ∧
    (BasketDb.Get (UpdateBasket world0 []
        (mkRequest "PUT" "/baskets/demo" "secret" "\x7b\"capacity\":5\x7d")
        [(go "basket", go "demo")]).1.db (go "demo")).map (fun b => b.Config) =
      some ⟨[], 200⟩ := by
  decide

/-- C10 (the code at the failing input). Splitting the empty path on `/` yields the one
part `""`, and a path without a slash yields itself alone, so `parts[1]` is out of
range and `AcceptBasketRequests` panics. -/
theorem AcceptBasketRequests_panics_without_slash :
    strings.Split (go "") (go "/") = [go ""] ∧
    strings.Split (go "demo") (go "/") = [go "demo"] ∧
    AcceptBasketRequests world0 [] (mkRequest "CONNECT" "" "" "") = none ∧
    AcceptBasketRequests world0 [] (mkRequest "GET" "demo" "" "") = none := by
  decide

/-- The first piece `splitLoop` yields on the separator `/` is the current piece followed by
the bytes up to the next slash. -/
theorem strings.splitLoop_slash_head :
    ∀ (s acc : GoString), ∃ tail, strings.splitLoop [0x2F] s acc 0 =
      (acc.reverse ++ s.takeWhile (fun c => c ≠ 0x2F)) :: tail := by
  intro s
  induction s with
  | nil => intro acc; exact ⟨[], by simp [strings.splitLoop]⟩
  | cons c cs ih =>
    intro acc
    by_cases hc : c = 0x2F
    · subst hc
      exact ⟨strings.splitLoop [0x2F] cs [] 0, by simp [strings.splitLoop, List.isPrefixOf]⟩
    · obtain ⟨tail, ht⟩ := ih (c :: acc)
      refine ⟨tail, ?_⟩
      have hne : ((0x2F : UInt8) == c) = false := by
        simpa using fun h => hc h.symm
      simp [strings.splitLoop, List.isPrefixOf, hne, ht, hc]

/-- The second part of a path that begins with a slash, split on slashes, is its first
segment. -/
theorem strings.Split_path (rest : GoString) :
    (strings.Split (0x2F :: rest) (go "/"))[1]? = some (firstSegment (0x2F :: rest)) := by
  have hgo : go "/" = [0x2F] := by decide
  obtain ⟨tail, ht⟩ := strings.splitLoop_slash_head rest []
  have h47 : UInt32.toUInt8 47 = 47 := by decide
  simp [strings.Split, hgo, strings.splitLoop, List.isPrefixOf, ht, firstSegment, h47]

/-- The lookup finds a basket of the name looked up. -/
theorem BasketDb.Get_name (db : BasketDb) (name : GoString) (b : Basket)
    (h : BasketDb.Get db name = some b) : b.Name = name := by
  have := List.find?_some h
  simpa using this

/-- After a change of the log of the basket `name`, the lookup of `name` finds the basket with
the new log, and the lookup of any other name finds what it found before. -/
theorem BasketDb.Get_updateRequests (f : RequestLog → RequestLog) (name : GoString) :
    ∀ (db : BasketDb),
      (∀ b, BasketDb.Get db name = some b →
        BasketDb.Get (BasketDb.updateRequests db name f) name
          = some { b with Requests := f b.Requests }) ∧
      (∀ n, n ≠ name →
        BasketDb.Get (BasketDb.updateRequests db name f) n = BasketDb.Get db n) := by
  intro db
  induction db with
  | nil => simp [BasketDb.Get, BasketDb.updateRequests]
  | cons b0 rest ih =>
    by_cases hb : b0.Name = name
    · constructor
      · intro b h
        simp only [BasketDb.Get, List.find?, hb, decide_True] at h
        cases h
        simp [BasketDb.Get, BasketDb.updateRequests, hb]
      · intro n hn
        have hn2 : ¬ b0.Name = n := fun h => hn (h.symm.trans hb)
        have hn3 : ¬ name = n := fun h => hn h.symm
        simp [BasketDb.Get, BasketDb.updateRequests, hb, List.find?, hn2, hn3]
    · constructor
      · intro b h
        simp only [BasketDb.Get, List.find?, hb, decide_False] at h
        simp only [BasketDb.updateRequests, hb, if_false, BasketDb.Get, List.find?, decide_False]
        exact ih.1 b h
      · intro n hn
        simp only [BasketDb.updateRequests, hb, if_false, BasketDb.Get, List.find?]
        cases hd : decide (b0.Name = n) with
        | true => rfl
        | false => exact ih.2 n hn

/-- Whether the lookup finds a basket depends on the names in the registry only. -/
theorem BasketDb.Get_isSome (db : BasketDb) (name : GoString) :
    (BasketDb.Get db name).isSome = decide (name ∈ db.map (fun b => b.Name)) := by
  induction db with
  | nil => simp [BasketDb.Get]
  | cons b0 rest ih =>
    by_cases hb : b0.Name = name
    · simp [BasketDb.Get, List.find?, hb]
    · have hb2 : ¬ name = b0.Name := fun h => hb h.symm
      simp only [BasketDb.Get, List.find?, hb, decide_False, List.map_cons, List.mem_cons, hb2,
        false_or]
      exact ih

/-- The handler `AcceptBasketRequests` on a path that begins with a slash, by the cases of
the lookup. -/
theorem AcceptBasketRequests_eq (s : World) (w : ResponseWriter) (r : Request) (rest : GoString)
    (hpath : r.URL.Path = 0x2F :: rest) :
    AcceptBasketRequests s w r =
      match BasketDb.Get s.db (firstSegment r.URL.Path) with
      | some b =>
        some ((s.call (.dbGet (firstSegment r.URL.Path))).RequestsAdd b r,
          w ++ [.WriteHeader 200])
      | none => some (s.call (.dbGet (firstSegment r.URL.Path)), w ++ [.WriteHeader 404]) := by
  simp only [AcceptBasketRequests, hpath, strings.Split_path, World.Get]

/-- C6. On a request whose path begins with a slash `AcceptBasketRequests` returns (no
panic), and the name it looks up is the first segment of the path.  If the registry holds
a basket of that name, the status written is 200, the calls are the lookup and one
`Requests.Add` of the request on that basket, whose log afterwards is its log before with
the request added once, and the lookup of any other name finds what it found before.  If
there is none, the status is 404, the only call is the lookup and the registry is as
before.  The response is the same for any other request with that path and any other
registry with the same names, whatever the headers of the request and the
configurations of the baskets. -/
theorem AcceptBasketRequests_spec (s : World) (w : ResponseWriter) (r : Request)
    (rest : GoString) (hpath : r.URL.Path = 0x2F :: rest) :
    ∃ t w1, AcceptBasketRequests s w r = some (t, w1) ∧
      (w1 = w ++ [.WriteHeader 200] ↔ ∃ b, BasketDb.Get s.db (firstSegment r.URL.Path) = some b) ∧
      (∀ b, BasketDb.Get s.db (firstSegment r.URL.Path) = some b →
        w1 = w ++ [.WriteHeader 200] ∧
        World.newCalls s t =
          [.dbGet (firstSegment r.URL.Path), .requestsAdd (firstSegment r.URL.Path) r] ∧
        BasketDb.Get t.db (firstSegment r.URL.Path)
          = some { b with Requests := b.Requests.Add r } ∧
        (∀ n, n ≠ firstSegment r.URL.Path → BasketDb.Get t.db n = BasketDb.Get s.db n)) ∧
      (BasketDb.Get s.db (firstSegment r.URL.Path) = none →
        w1 = w ++ [.WriteHeader 404] ∧
        World.newCalls s t = [.dbGet (firstSegment r.URL.Path)] ∧ t.db = s.db) ∧
      (∀ (s2 : World) (r2 : Request), r2.URL.Path = r.URL.Path →
        s2.db.map (fun b => b.Name) = s.db.map (fun b => b.Name) →
        (AcceptBasketRequests s2 w r2).map (fun p => p.2) = some w1) := by
  have hindep : ∀ (s2 : World) (r2 : Request), r2.URL.Path = r.URL.Path →
      s2.db.map (fun b => b.Name) = s.db.map (fun b => b.Name) →
      (AcceptBasketRequests s2 w r2).map (fun p => p.2) =
        (AcceptBasketRequests s w r).map (fun p => p.2) := by
    intro s2 r2 hp hn
    rw [AcceptBasketRequests_eq s w r rest hpath,
      AcceptBasketRequests_eq s2 w r2 rest (hp.trans hpath), hp]
    have h1 := BasketDb.Get_isSome s.db (firstSegment r.URL.Path)
    have h2 := BasketDb.Get_isSome s2.db (firstSegment r.URL.Path)
    rw [hn, ← h1] at h2
    cases hg : BasketDb.Get s.db (firstSegment r.URL.Path) <;>
      cases hg2 : BasketDb.Get s2.db (firstSegment r.URL.Path) <;>
      rw [hg, hg2] at h2 <;> simp at h2 <;> rfl
  have heq := AcceptBasketRequests_eq s w r rest hpath
  cases hg : BasketDb.Get s.db (firstSegment r.URL.Path) with
  | none =>
    rw [hg] at heq
    refine ⟨_, _, heq, ?_, ?_, ?_, ?_⟩
    · simp
    · intro b hb; cases hb
    · intro _
      exact ⟨rfl, World.newCalls_append s _ _ (by simp [World.call]), rfl⟩
    · intro s2 r2 hp hn
      rw [hindep s2 r2 hp hn, heq]
      rfl
  | some b =>
    rw [hg] at heq
    have hname := BasketDb.Get_name s.db _ b hg
    have hupd := BasketDb.Get_updateRequests (fun log => log.Add r) (firstSegment r.URL.Path) s.db
    refine ⟨_, _, heq, ?_, ?_, ?_, ?_⟩
    · simp
    · intro b1 hb1
      cases hb1
      refine ⟨rfl, ?_, ?_, ?_⟩
      · exact World.newCalls_append s _ _ (by simp [World.RequestsAdd, World.call, hname])
      · simpa [World.RequestsAdd, World.call, hname] using hupd.1 b hg
      · intro n hn
        simpa [World.RequestsAdd, World.call, hname] using hupd.2 n hn
    · intro h; cases h
    · intro s2 r2 hp hn
      rw [hindep s2 r2 hp hn, heq]
      rfl

/-- The theorem `AcceptBasketRequests_spec` at a request for `/demo/hello` without the
token: the request is in the log of `demo` afterwards. -/
theorem AcceptBasketRequests_spec_witness :
    (mkRequest "POST" "/demo/hello" "" "hi").URL.Path = 0x2F :: go "demo/hello" ∧
    ∃ t w1, AcceptBasketRequests world0 [] (mkRequest "POST" "/demo/hello" "" "hi") = some (t, w1) ∧
      w1 = [.WriteHeader 200] ∧
      BasketDb.Get t.db (go "demo") = some { demoBasket with
        Requests := ⟨200, 1, [mkRequest "POST" "/demo/hello" "" "hi"]⟩ } :=
  ⟨by decide, by
    obtain ⟨t, w1, h1, _, h3, _⟩ := AcceptBasketRequests_spec world0 []
      (mkRequest "POST" "/demo/hello" "" "hi") (go "demo/hello") (by decide)
    have hseg : firstSegment (mkRequest "POST" "/demo/hello" "" "hi").URL.Path = go "demo" := by
      decide
    rw [hseg] at h3
    obtain ⟨h4, _, h5, _⟩ := h3 demoBasket (by decide)
    exact ⟨t, w1, h1, h4, h5⟩⟩

/-- Digits only add to the number spelt so far. -/
theorem decimalValue_le (digits : GoString) : ∀ n, n ≤ decimalValue n digits := by
  induction digits with
  | nil => intro n; exact Nat.le_refl n
  | cons c cs ih =>
    intro n
    have := ih (10 * n + (c.toNat - 0x30))
    simp only [decimalValue, List.foldl_cons] at this ⊢
    omega

/-- The digit loop of `ParseUint` returns a number exactly on decimal digits that spell a
number up to `maxVal`, and then that number. -/
theorem strconv.parseUintLoop_iff (bitSize : Nat) (hb : bitSize ≤ 64) :
    ∀ (digits : GoString) (n m : Nat), n ≤ 2 ^ bitSize - 1 →
      (strconv.parseUintLoop bitSize digits n = .ok m ↔
        (digits.all json.isDigit = true ∧ decimalValue n digits ≤ 2 ^ bitSize - 1 ∧
          m = decimalValue n digits)) := by
  have hP : 2 ^ bitSize ≤ 18446744073709551616 := by
    have := Nat.pow_le_pow_right (by decide : 0 < 2) hb
    simpa using this
  intro digits
  induction digits with
  | nil =>
    intro n m hn
    simp only [strconv.parseUintLoop, decimalValue, List.foldl_nil, List.all_nil, true_and]
    constructor
    · intro h
      cases h
      exact ⟨hn, rfl⟩
    · rintro ⟨_, rfl⟩
      rfl
  | cons c cs ih =>
    intro n m hn
    have hstep : decimalValue n (c :: cs) = decimalValue (10 * n + (c.toNat - 0x30)) cs := rfl
    have hmono := decimalValue_le cs (10 * n + (c.toNat - 0x30))
    have hc : c.toNat < 256 := c.val.isLt
    rw [hstep]
    by_cases hd : json.isDigit c = true
    · have hd2 : (0x30 ≤ c && c ≤ 0x39) = true := hd
      simp only [strconv.parseUintLoop, hd2, if_true, List.all_cons, hd, Bool.true_and]
      norm_num only
      by_cases h1 : 1844674407370955162 ≤ n
      · simp only [ge_iff_le, h1, if_true, reduceCtorEq, false_iff, not_and]
        intro _ h
        omega
      · simp only [ge_iff_le, h1, if_false]
        have hn10 : n * 10 % 18446744073709551616 = n * 10 := Nat.mod_eq_of_lt (by omega)
        rw [hn10]
        by_cases h2 : 18446744073709551616 ≤ n * 10 + (c.toNat - 48)
        · have hlt : (n * 10 + (c.toNat - 48)) % 18446744073709551616 < n * 10 := by omega
          simp only [hlt, decide_True, Bool.true_or, if_true, reduceCtorEq, false_iff, not_and]
          intro _ h
          omega
        · have hmod : (n * 10 + (c.toNat - 48)) % 18446744073709551616
              = n * 10 + (c.toNat - 48) := Nat.mod_eq_of_lt (by omega)
          rw [hmod]
          have hnlt : ¬ (n * 10 + (c.toNat - 48) < n * 10) := by omega
          by_cases h3 : n * 10 + (c.toNat - 48) > 2 ^ bitSize - 1
          · simp only [hnlt, decide_False, h3, decide_True, Bool.or_true, if_true, reduceCtorEq,
              false_iff, not_and]
            intro _ h
            omega
          · simp only [hnlt, decide_False, h3, Bool.or_false, Bool.false_eq_true, if_false]
            have hcomm : 10 * n + (c.toNat - 48) = n * 10 + (c.toNat - 48) := by omega
            rw [hcomm] at *
            exact ih _ m (by omega)
    · have hd2 : (0x30 ≤ c && c ≤ 0x39) = false := by
        simpa [json.isDigit] using hd
      simp [strconv.parseUintLoop, hd2, hd]

/-- The function `ParseUint` returns a number exactly on one decimal digit or more that spell
a number up to `maxVal`, and then that number. -/
theorem strconv.ParseUint_iff (bitSize : Nat) (hb : bitSize ≤ 64) (digits : GoString) (m : Nat) :
    strconv.ParseUint digits bitSize = .ok m ↔
      (digits ≠ [] ∧ digits.all json.isDigit = true ∧ decimalValue 0 digits ≤ 2 ^ bitSize - 1 ∧
        m = decimalValue 0 digits) := by
  unfold strconv.ParseUint
  cases digits with
  | nil => simp
  | cons c cs =>
    simp only [List.isEmpty_cons, Bool.false_eq_true, if_false, ne_eq, reduceCtorEq,
      not_false_eq_true, true_and]
    exact strconv.parseUintLoop_iff bitSize hb (c :: cs) 0 m (Nat.zero_le _)

/-- The function `ParseInt` on a sign and digits, given what `ParseUint` makes of the
digits. -/
theorem strconv.ParseInt_sign (bitSize : Nat) (hb0 : 0 < bitSize) (hb : bitSize ≤ 64)
    (neg : Bool) (digits : GoString) (n : Int) :
    (match strconv.ParseUint digits bitSize with
      | .error .ErrSyntax => (.error .ErrSyntax : Except strconv.NumError Int)
      | .error .ErrRange => .error .ErrRange
      | .ok un =>
        if !neg && un ≥ 2 ^ (bitSize - 1) then .error .ErrRange
        else if neg && un > 2 ^ (bitSize - 1) then .error .ErrRange
        else .ok (if neg then -(un : Int) else (un : Int))) = .ok n ↔
      (digits ≠ [] ∧ digits.all json.isDigit = true ∧
        n = (if neg then -(decimalValue 0 digits : Int) else (decimalValue 0 digits : Int)) ∧
        -(2 ^ (bitSize - 1) : Int) ≤ n ∧ n < 2 ^ (bitSize - 1)) := by
  have hpow : 2 ^ bitSize = 2 * 2 ^ (bitSize - 1) := by
    cases bitSize with
    | zero => omega
    | succ k => simp [Nat.pow_succ, Nat.mul_comm]
  have hpos : 0 < 2 ^ (bitSize - 1) := Nat.two_pow_pos _
  have hcast : ((2 : Int) ^ (bitSize - 1)) = ((2 ^ (bitSize - 1) : Nat) : Int) := by push_cast; rfl
  rw [hcast]
  have hiff := strconv.ParseUint_iff bitSize hb digits
  cases hpu : strconv.ParseUint digits bitSize with
  | error e =>
    have hno : ¬ (digits ≠ [] ∧ digits.all json.isDigit = true ∧
        decimalValue 0 digits ≤ 2 ^ bitSize - 1) := by
      intro ⟨h1, h2, h3⟩
      have := (hiff (decimalValue 0 digits)).mpr ⟨h1, h2, h3, rfl⟩
      rw [hpu] at this
      cases this
    cases e <;>
    · simp only [reduceCtorEq, false_iff]
      rintro ⟨h1, h2, h3, h4, h5⟩
      apply hno
      refine ⟨h1, h2, ?_⟩
      cases neg <;> simp only [Bool.false_eq_true, if_false, if_true] at h3 <;> omega
  | ok un =>
    obtain ⟨h1, h2, h3, h4⟩ := (hiff un).mp hpu
    subst h4
    simp only [h1, h2, ne_eq, not_false_eq_true, true_and]
    cases neg with
    | false =>
      simp only [Bool.not_false, Bool.true_and, ge_iff_le, decide_eq_true_eq, Bool.false_and,
        Bool.false_eq_true, if_false]
      by_cases hr : 2 ^ (bitSize - 1) ≤ decimalValue 0 digits
      · simp only [hr, if_true, reduceCtorEq, false_iff]
        rintro ⟨rfl, _, h⟩
        omega
      · simp only [hr, if_false]
        constructor
        · intro h
          cases h
          refine ⟨rfl, ?_, ?_⟩ <;> omega
        · rintro ⟨rfl, _⟩
          rfl
    | true =>
      simp only [Bool.not_true, Bool.false_and, Bool.false_eq_true, if_false, Bool.true_and,
        gt_iff_lt, decide_eq_true_eq, if_true]
      by_cases hr : 2 ^ (bitSize - 1) < decimalValue 0 digits
      · simp only [hr, if_true, reduceCtorEq, false_iff]
        rintro ⟨rfl, h, _⟩
        omega
      · simp only [hr, if_false]
        constructor
        · intro h
          cases h
          refine ⟨rfl, ?_, ?_⟩ <;> omega
        · rintro ⟨rfl, _⟩
          rfl

/-- The function `strconv.Atoi` returns a number exactly on the decimal integer literals
whose value is within the range of `int`, and then that value. -/
theorem strconv.Atoi_iff (intSize : Nat) (hb0 : 0 < intSize) (hb : intSize ≤ 64)
    (v : GoString) (n : Int) :
    strconv.Atoi intSize v = .ok n ↔
      (decimalLiteral v = some n ∧ -(2 ^ (intSize - 1) : Int) ≤ n ∧ n < 2 ^ (intSize - 1)) := by
  unfold strconv.Atoi strconv.ParseInt decimalLiteral
  cases v with
  | nil => simp
  | cons c cs =>
    simp only
    by_cases hplus : c = 0x2B
    · subst hplus
      have hneg : decide ((0x2B : UInt8) = 0x2D) = false := by decide
      have := strconv.ParseInt_sign intSize hb0 hb false cs n
      simp only [hneg, Bool.or_false, decide_True, if_true] at this ⊢
      rw [this]
      by_cases hl : cs ≠ [] ∧ cs.all json.isDigit = true
      · simp only [hl, and_self, if_true, Option.some.injEq, ne_eq, not_false_eq_true, true_and,
          Bool.false_eq_true, if_false]
        constructor
        · rintro ⟨rfl, h⟩; exact ⟨rfl, h⟩
        · rintro ⟨rfl, h⟩; exact ⟨rfl, h⟩
      · simp only [hl, if_false, reduceCtorEq, false_and, iff_false]
        rintro ⟨h1, h2, _⟩
        exact hl ⟨h1, h2⟩
    · by_cases hminus : c = 0x2D
      · subst hminus
        have := strconv.ParseInt_sign intSize hb0 hb true cs n
        simp only [hplus, decide_True, decide_False, Bool.or_true, if_true, if_false] at this ⊢
        rw [this]
        by_cases hl : cs ≠ [] ∧ cs.all json.isDigit = true
        · simp only [hl, and_self, if_true, Option.some.injEq, ne_eq, not_false_eq_true, true_and]
          constructor
          · rintro ⟨rfl, h⟩; exact ⟨rfl, h⟩
          · rintro ⟨rfl, h⟩; exact ⟨rfl, h⟩
        · simp only [hl, if_false, reduceCtorEq, false_and, iff_false]
          rintro ⟨h1, h2, _⟩
          exact hl ⟨h1, h2⟩
      · have := strconv.ParseInt_sign intSize hb0 hb false (c :: cs) n
        simp only [hplus, hminus, decide_False, Bool.or_false, Bool.false_eq_true, if_false]
          at this ⊢
        rw [this]
        by_cases hl : (c :: cs).all json.isDigit = true
        · simp only [hl, if_true, Option.some.injEq, ne_eq, reduceCtorEq, not_false_eq_true,
            true_and]
          constructor
          · rintro ⟨rfl, h⟩; exact ⟨rfl, h⟩
          · rintro ⟨rfl, h⟩; exact ⟨rfl, h⟩
        · simp only [hl, if_false, reduceCtorEq, false_and, iff_false]
          rintro ⟨_, h2⟩
          exact h2

/-- C7. On a platform whose `int` has between 1 and 64 bits, `getIntParam` returns the
default when the query has no such parameter, when the first value of the parameter is
empty, and when that value is no decimal integer literal with a value in the range of
`int`; it returns the value of the literal, of either sign and unchanged, when the
first value is a decimal integer literal in that range.  `GetBaskets` and
`GetBasketRequests` hand `getIntParam(r, "max", DEFAULT_PAGE_SIZE)` and
`getIntParam(r, "skip", 0)` to `ToJson` and write its output. -/
theorem getIntParam_spec (env : Env) (s : World) (w : ResponseWriter) (r : Request)
    (ps : Params) (name : GoString) (d : Int)
    (hsize : 0 < env.intSize ∧ env.intSize ≤ 64) :
    (r.URL.Query.lookup name = none → getIntParam env r name d = d) ∧
    (Values.Get r.URL.Query name = [] → getIntParam env r name d = d) ∧
    ((∀ n, decimalLiteral (Values.Get r.URL.Query name) = some n →
        ¬ (-(2 ^ (env.intSize - 1) : Int) ≤ n ∧ n < 2 ^ (env.intSize - 1))) →
      getIntParam env r name d = d) ∧
    (∀ n, decimalLiteral (Values.Get r.URL.Query name) = some n →
      -(2 ^ (env.intSize - 1) : Int) ≤ n → n < 2 ^ (env.intSize - 1) →
      getIntParam env r name d = n) ∧
    GetBaskets env s w r ps =
      (s.call (.dbToJson (getIntParam env r (go "max") env.DEFAULT_PAGE_SIZE)
          (getIntParam env r (go "skip") 0)),
        writeJson w 200
          (env.DbToJson s.db (getIntParam env r (go "max") env.DEFAULT_PAGE_SIZE)
            (getIntParam env r (go "skip") 0)).1
          (env.DbToJson s.db (getIntParam env r (go "max") env.DEFAULT_PAGE_SIZE)
            (getIntParam env r (go "skip") 0)).2) ∧
    (∀ b, BasketDb.Get s.db (Params.ByName ps (go "basket")) = some b →
      Values.Get r.Header (go "Authorization") = b.Token →
      GetBasketRequests env s w r ps =
        ((s.call (.dbGet (Params.ByName ps (go "basket")))).call
            (.requestsToJson b.Name (getIntParam env r (go "max") env.DEFAULT_PAGE_SIZE)
              (getIntParam env r (go "skip") 0)),
          writeJson w 200
            (env.RequestsToJson b.Requests (getIntParam env r (go "max") env.DEFAULT_PAGE_SIZE)
              (getIntParam env r (go "skip") 0)).1
            (env.RequestsToJson b.Requests (getIntParam env r (go "max") env.DEFAULT_PAGE_SIZE)
              (getIntParam env r (go "skip") 0)).2)) := by
  have hempty : Values.Get r.URL.Query name = [] → getIntParam env r name d = d := by
    intro h
    simp [getIntParam, h]
  have hbad : (∀ n, decimalLiteral (Values.Get r.URL.Query name) = some n →
        ¬ (-(2 ^ (env.intSize - 1) : Int) ≤ n ∧ n < 2 ^ (env.intSize - 1))) →
      getIntParam env r name d = d := by
    intro h
    unfold getIntParam
    simp only
    split
    · cases ha : strconv.Atoi env.intSize (Values.Get r.URL.Query name) with
      | error e => rfl
      | ok i =>
        have := (strconv.Atoi_iff env.intSize hsize.1 hsize.2 _ i).mp ha
        exact absurd this.2 (h i this.1)
    · rfl
  have hgood : ∀ n, decimalLiteral (Values.Get r.URL.Query name) = some n →
      -(2 ^ (env.intSize - 1) : Int) ≤ n → n < 2 ^ (env.intSize - 1) →
      getIntParam env r name d = n := by
    intro n h1 h2 h3
    have ha := (strconv.Atoi_iff env.intSize hsize.1 hsize.2 _ n).mpr ⟨h1, h2, h3⟩
    have hne : (Values.Get r.URL.Query name).length > 0 := by
      cases hv : Values.Get r.URL.Query name with
      | nil => rw [hv] at h1; simp [decimalLiteral] at h1
      | cons c cs => simp
    simp [getIntParam, hne, ha]
  refine ⟨?_, hempty, hbad, hgood, ?_, ?_⟩
  · intro h
    exact hempty (by simp [Values.Get, h])
  · simp [GetBaskets, World.ToJson]
  · intro b hb ht
    have hg := getAndAuthBasket_eq s w r ps
    simp only [hb, ht, if_true] at hg
    simp [GetBasketRequests, hg, World.RequestsToJson]

/-- The theorem `getIntParam_spec` at a query with the values `-7` and `9` for `max`: the
result is the first value, with its sign. -/
theorem getIntParam_spec_witness :
    (0 < env0.intSize ∧ env0.intSize ≤ 64) ∧
    getIntParam env0
      { Method := go "GET", URL := ⟨go "/baskets", [(go "max", [go "-7", go "9"])]⟩,
        Header := [], Body := ⟨[], none⟩ } (go "max") 20 = -7 :=
  ⟨by decide,
    (getIntParam_spec env0 world0 []
      { Method := go "GET", URL := ⟨go "/baskets", [(go "max", [go "-7", go "9"])]⟩,
        Header := [], Body := ⟨[], none⟩ } [] (go "max") 20 (by decide)).2.2.2.1 (-7)
      (by decide) (by decide) (by decide)⟩

end RequestBaskets
